import Mathlib

/-!
Shallow embedding of the bounded-memory GNG training engine of
src/gng_neorv32_accelerator_V2_backup/fw/gng_lite_fixed_point.py
(the fixed-point configuration, use_fixed_point = True, which is the default
and the variant the module is named after).

Modelling conventions:
* Python floats are modelled as rationals.  Every float that reaches the
  engine is a dyadic rational, and the only float operations performed on it
  (multiplication by 65536, truncation toward zero, division by 65536) are
  exact in binary64 in the range the engine handles, so the rational model is
  exact.
* numpy int32 arithmetic wraps on overflow; this is `wrap32`.  Where the
  source clamps (`float_to_fixed`, `fixed_mul`) we clamp (`clamp32`).
* The numpy arrays `weights`, `errors` are preallocated with `max_nodes`
  slots of which only the first `n_nodes` are ever read; they are modelled by
  lists of length `n_nodes` (the active prefix).  Likewise `edge_nodes` /
  `edge_ages` are modelled by one list of `Edge` records of length `n_edges`.
  Edge endpoints and ages are stored in uint16 cells, so stores are reduced
  mod 65536.
* Python exceptions (ValueError from `np.random.choice`/`initialize`,
  ValueError from `np.argmax` of an empty slice, ZeroDivisionError from
  `% lambda_` with `lambda_ = 0`, IndexError from the `used[]` mask) are
  modelled by `Option`: `none` means the call raised.
-/

namespace GNGLite

/-- Q16.16 scale, `FIXED_POINT_SCALE` in the source. -/
def fpScale : Int := 65536

/-- `FIXED_POINT_MAX = (1 << 31) - 1`. -/
def fpMax : Int := 2 ^ 31 - 1

/-- `FIXED_POINT_MIN = -(1 << 31)`. -/
def fpMin : Int := -(2 ^ 31)

/-- Saturation to the int32 range, as used by the source's conversions. -/
def clamp32 (v : Int) : Int := max fpMin (min fpMax v)

/-- numpy int32 wrap-around arithmetic (two's complement, 32 bits). -/
def wrap32 (v : Int) : Int := (v + 2 ^ 31).emod (2 ^ 32) - 2 ^ 31

/-- `float_to_fixed(x)`: `int(x * FIXED_POINT_SCALE)` then clamp.  Python's
`int` truncates toward zero; for a rational `x`, `int(x * 65536)` is exactly
`(x.num * 65536) tdiv x.den` (the float multiplication by the power of two
65536 is exact in binary64 throughout the clamped range). -/
def float_to_fixed (x : ℚ) : Int := clamp32 ((x.num * 65536).tdiv (x.den : Int))

/-- `fixed_to_float(x)`: `x / FIXED_POINT_SCALE` (exact in binary64 for any
int32 input). -/
def fixed_to_float (x : Int) : ℚ := (x : ℚ) / 65536

/-- `fixed_mul(a, b)`: widen to int64, multiply, arithmetic shift right 16
(that is floor division by 65536), clamp back to int32. -/
def fixed_mul (a b : Int) : Int := clamp32 ((a * b).fdiv 65536)

/-- `GNGLiteConfig`: a plain dataclass; no field is validated anywhere. -/
structure GNGLiteConfig where
  max_nodes : Int := 32
  max_edges : Int := 64
  feature_dim : Int := 2
  epsilon_winner : ℚ := mkRat 1 20
  epsilon_neighbor : ℚ := mkRat 6 10000
  alpha : ℚ := mkRat 1 2
  beta : ℚ := mkRat 995 1000
  max_age : Int := 88
  lambda_ : Int := 300
deriving DecidableEq, Repr

/-- One packed edge record: two uint16 endpoints and a uint16 age
(`edge_nodes[i]` and `edge_ages[i]` in the source). -/
structure Edge where
  n1 : Nat
  n2 : Nat
  age : Nat
deriving DecidableEq, Repr

/-- Engine state.  `weights`/`errors` hold the active prefix (slots
`0 .. n_nodes-1`) of the preallocated arrays; `edges` holds the packed edge
records `0 .. n_edges-1`.  `eps_w`, `eps_n`, `alpha_fixed`, `beta_fixed` are
the fixed-point conversions of the configured rates. -/
structure GNG where
  cfg : GNGLiteConfig
  weights : List (List Int)
  errors : List Int
  edges : List Edge
  iteration : Nat
  eps_w : Int
  eps_n : Int
  alpha_fixed : Int
  beta_fixed : Int
deriving DecidableEq, Repr

/-- `self.n_nodes` (the active node count). -/
def GNG.nNodes (s : GNG) : Nat := s.weights.length

/-- `self.n_edges` (the active edge count). -/
def GNG.nEdges (s : GNG) : Nat := s.edges.length

/-- `GNGLite.__init__`.  The only way construction can fail is numpy
rejecting a negative array dimension in the `np.zeros` preallocations
(`max_nodes`, `feature_dim` for the weight array, `max_edges` for the edge
arrays); nothing else is checked. -/
def mkGNGLite (cfg : GNGLiteConfig) : Option GNG :=
  if cfg.max_nodes < 0 ∨ cfg.max_edges < 0 ∨ cfg.feature_dim < 0 then none
  else some
    { cfg := cfg
      weights := []
      errors := []
      edges := []
      iteration := 0
      eps_w := float_to_fixed cfg.epsilon_winner
      eps_n := float_to_fixed cfg.epsilon_neighbor
      alpha_fixed := float_to_fixed cfg.alpha
      beta_fixed := float_to_fixed cfg.beta }

/-- The scan of `add_edge` for an existing edge: find the first stored record
with `edge_nodes[i] == (a, b)` and reset its age to 0 (the source then
returns `True` at once).  `none` means no record matched. -/
def resetAge (a b : Nat) : List Edge → Option (List Edge)
  | [] => none
  | e :: t =>
    if e.n1 = a ∧ e.n2 = b then some ({ e with age := 0 } :: t)
    else (resetAge a b t).map (e :: ·)

/-- `GNGLite.add_edge(n1, n2)`: reject self-loops, normalize so `n1 < n2`,
refresh the age if the pair is already stored, otherwise append when below
`max_edges` (uint16 stores reduce the endpoints mod 65536), else do
nothing. -/
def add_edge (s : GNG) (a b : Nat) : GNG :=
  if a = b then s
  else
    let n1 := min a b
    let n2 := max a b
    match resetAge n1 n2 s.edges with
    | some es => { s with edges := es }
    | none =>
      if (s.edges.length : Int) < s.cfg.max_edges then
        { s with edges := s.edges ++ [⟨n1 % 65536, n2 % 65536, 0⟩] }
      else s

/-- `GNGLite.remove_edge(edge_idx)`: shift the packed suffix down by one when
the index is in range. -/
def remove_edge (s : GNG) (i : Nat) : GNG :=
  if i < s.edges.length then { s with edges := s.edges.eraseIdx i } else s

/-- `GNGLite.get_neighbors(node_idx)`: walk the packed edge list in order and
collect the opposite endpoint of every edge touching the node. -/
def get_neighbors (s : GNG) (q : Nat) : List Nat :=
  s.edges.filterMap fun e =>
    if e.n1 = q then some e.n2 else if e.n2 = q then some e.n1 else none

/-- `GNGLite.get_memory_usage()`: the `nodes_bytes`, `edges_bytes` and
`total_bytes` entries of the returned dict.  Note the source adds a constant
`overhead = 100` into `total_bytes`.  The function only reads state. -/
def get_memory_usage (s : GNG) : Int × Int × Int :=
  let node_mem : Int := (s.nNodes : Int) * (s.cfg.feature_dim * 4 + 4)
  let edge_mem : Int := (s.nEdges : Int) * 6
  (node_mem, edge_mem, node_mem + edge_mem + 100)

/-- `GNGLite.distance_squared(node_idx, sample)` in the fixed-point branch:
for each dimension, `diff = weights[i, d] - float_to_fixed(sample[d])`
(int32 arithmetic, hence `wrap32`), then
`diff_sq = (int64(diff) * int64(diff)) >> 16` — a raw widened square with an
arithmetic shift, with NO saturation — accumulated into a Python int. -/
def distance_squared (s : GNG) (i : Nat) (sample : List ℚ) : Int :=
  ((List.range s.cfg.feature_dim.toNat).map fun d =>
    let diff := wrap32 ((s.weights.getD i []).getD d 0 - float_to_fixed (sample.getD d 0))
    (diff * diff).fdiv 65536).sum

/-- Modelled from the spec (section 4.3), for comparison with
`distance_squared`: the spec says the fixed-point squared distance is
computed with the arithmetic unit's `mul`, i.e. `fixed_mul`, which clamps
each per-dimension term to the int32 range. -/
def distance_squared_spec (s : GNG) (i : Nat) (sample : List ℚ) : Int :=
  ((List.range s.cfg.feature_dim.toNat).map fun d =>
    let diff := wrap32 ((s.weights.getD i []).getD d 0 - float_to_fixed (sample.getD d 0))
    fixed_mul diff diff).sum

/-- Stable insertion (by strictly smaller key) of an index into an
index list: the new index passes every entry whose key is `≤` its own, so
among equal keys earlier-inserted (smaller) indices stay first. -/
def insertByKey (key : Nat → Int) (i : Nat) : List Nat → List Nat
  | [] => [i]
  | j :: t => if key i < key j then i :: j :: t else j :: insertByKey key i t

/-- `np.argsort` (default `kind='quicksort'`, i.e. introsort) over the keys
of indices `0 .. n-1`, modelled as a stable insertion sort.  Numpy's
introsort runs a plain insertion sort — which is stable — only on arrays of
at most 16 elements; above its small-array cutoff it partitions unstably,
so the order of equal keys is unspecified.  The model is therefore asserted
as the code's argsort only for `n ≤ 16` (C5 carries that hypothesis); for
larger `n` it is one sorted permutation among those numpy may produce, and
downstream facts proved about it (C1, C2) use only that it permutes
`0 .. n-1`, which holds for every argsort result. -/
def argsortIdx (key : Nat → Int) (n : Nat) : List Nat :=
  (List.range n).foldl (fun acc i => insertByKey key i acc) []

/-- `GNGLite.find_two_nearest(sample)`: distances to every active node,
argsort, return the first two indices.  (Exact tie behavior of the code
only for at most 16 active nodes — see `argsortIdx`.) -/
def find_two_nearest (s : GNG) (sample : List ℚ) : Nat × Nat :=
  let idx := argsortIdx (fun i => distance_squared s i sample) s.nNodes
  (idx.getD 0 0, idx.getD 1 0)

/-- `GNGLite.update_weights(node_idx, sample, learning_rate)` in the
fixed-point branch: per dimension,
`delta = float_to_fixed(sample[d]) - weights[i, d]` (int32, hence `wrap32`),
then `weights[i, d] += fixed_mul(learning_rate, delta)` (int32 add, hence
`wrap32`). -/
def update_weights (s : GNG) (i : Nat) (sample : List ℚ) (lr : Int) : GNG :=
  let row := s.weights.getD i []
  let row' := (List.range s.cfg.feature_dim.toNat).map fun d =>
    let w := row.getD d 0
    let delta := wrap32 (float_to_fixed (sample.getD d 0) - w)
    wrap32 (w + fixed_mul lr delta)
  { s with weights := s.weights.set i row' }

/-- The `used` mask of `remove_isolated_nodes` as a predicate: a slot is used
iff some stored edge touches it. -/
def usedB (s : GNG) (v : Nat) : Bool :=
  s.edges.any fun e => e.n1 == v || e.n2 == v

/-- `mapping[old]` for a used slot `old < n_nodes`: the number of used slots
strictly below it (the compaction loop assigns new indices in increasing
order of the old ones). -/
def rank (s : GNG) (v : Nat) : Nat :=
  ((List.range v).filter (usedB s)).length

/-- The compaction body of `remove_isolated_nodes`: keep only the used slots
of the active weight/error prefix, in order (the copy-down loop), and
rewrite every edge endpoint through the old-to-new `mapping` (`rank` for a
used in-prefix slot, `-1` for an unassigned slot, cast into the uint16
store). -/
def compactState (s : GNG) : GNG :=
  { s with
    weights := ((List.range s.nNodes).filter (usedB s)).map fun i => s.weights.getD i []
    errors := ((List.range s.nNodes).filter (usedB s)).map fun i => s.errors.getD i 0
    edges := s.edges.map fun e =>
      { e with
        n1 := ((if e.n1 < s.nNodes ∧ usedB s e.n1 then ((rank s e.n1 : Nat) : Int)
                else -1).emod 65536).toNat
        n2 := ((if e.n2 < s.nNodes ∧ usedB s e.n2 then ((rank s e.n2 : Nat) : Int)
                else -1).emod 65536).toNat } }

/-- `GNGLite.remove_isolated_nodes()`: build the usage mask from every stored
edge (an IndexError — `none` — if an endpoint is outside the `max_nodes`-slot
mask), then compact. -/
def remove_isolated_nodes (s : GNG) : Option GNG :=
  if s.edges.any (fun e => s.cfg.max_nodes ≤ (e.n1 : Int) ∨ s.cfg.max_nodes ≤ (e.n2 : Int)) then
    none
  else some (compactState s)

/-- `np.argmax` over a list: the index of the first occurrence of the
maximum (numpy keeps the first on ties).  `np.argmax` of an empty slice
raises; callers guard with `none`. -/
def argmaxIdx (l : List Int) : Nat :=
  (List.range l.length).foldl
    (fun best i => if l.getD best 0 < l.getD i 0 then i else best) 0

/-- Python's `max(xs, key=k)` on a nonempty list: the first element with
maximal key (`>` updates, so ties keep the earlier element). -/
def argmaxKey (key : Nat → Int) (x : Nat) (t : List Nat) : Nat :=
  t.foldl (fun best m => if key best < key m then m else best) x

/-- The scan of `insert_node` that removes the edge between `q` and `f`: the
index of the first stored edge matching either orientation. -/
def findEdgeIdx (es : List Edge) (q f : Nat) : Option Nat :=
  match es with
  | [] => none
  | e :: t =>
    if (e.n1 = q ∧ e.n2 = f) ∨ (e.n1 = f ∧ e.n2 = q) then some 0
    else (findEdgeIdx t q f).map (· + 1)

/-- The mutation `insert_node` performs once the maximum-error node `q` and
its maximum-error neighbor `f` are chosen: write the new node's weights at
slot `n_nodes` (per-dimension midpoint `(w_q + w_f) >> 1`, an int32 add then
an arithmetic shift), remove the first stored `(q,f)`/`(f,q)` edge,
`add_edge(q, new)`, `add_edge(f, new)`, decay `errors[q]` then `errors[f]`
by `alpha` and copy the post-decay `errors[q]` into the new slot, finally
`n_nodes += 1` (the slot writes become appends to the active prefix). -/
def insertStep (s : GNG) (q f : Nat) : GNG :=
  let newIdx := s.nNodes
  let newRow := (List.range s.cfg.feature_dim.toNat).map fun d =>
    (wrap32 ((s.weights.getD q []).getD d 0 + (s.weights.getD f []).getD d 0)).fdiv 2
  let s1 :=
    match findEdgeIdx s.edges q f with
    | some k => remove_edge s k
    | none => s
  let s2 := add_edge s1 q newIdx
  let s3 := add_edge s2 f newIdx
  let errs1 := s.errors.set q (fixed_mul (s.errors.getD q 0) s.alpha_fixed)
  let errs2 := errs1.set f (fixed_mul (errs1.getD f 0) s.alpha_fixed)
  { s3 with
    weights := s.weights ++ [newRow]
    errors := errs2 ++ [errs2.getD q 0] }

/-- `GNGLite.insert_node()`: return unchanged at node capacity; otherwise
`q = np.argmax(errors[:n_nodes])` (raises — `none` — when no node is
active), `f` = the neighbor of `q` with maximal error (Python `max` with a
key keeps the first maximal), then perform `insertStep`; with no neighbors,
return unchanged. -/
def insert_node (s : GNG) : Option GNG :=
  if s.cfg.max_nodes ≤ (s.nNodes : Int) then some s
  else if s.nNodes = 0 then none
  else
    match get_neighbors s (argmaxIdx s.errors) with
    | [] => some s
    | n0 :: nrest =>
      some (insertStep s (argmaxIdx s.errors)
        (argmaxKey (fun n => s.errors.getD n 0) n0 nrest))

/-- Global error decay, the last statement of `train_step`:
`errors[i] = fixed_mul(errors[i], beta)` for every active `i`. -/
def decay_errors (s : GNG) : GNG :=
  { s with errors := s.errors.map fun e => fixed_mul e s.beta_fixed }

/-- Step 6 of the adaptation: increment (uint16, wrapping) the age of every
edge incident to the winner `s1`. -/
def ageIncident (s : GNG) (s1 : Nat) : GNG :=
  { s with
    edges := s.edges.map fun (e : Edge) =>
      if e.n1 = s1 ∨ e.n2 = s1 then { e with age := (e.age + 1) % 65536 } else e }

/-- Step 7 of the adaptation: the in-place removal loop deletes, preserving
order, every edge with `age > max_age` — a filter keeping the rest. -/
def pruneAged (s : GNG) : GNG :=
  { s with edges := s.edges.filter fun e => ¬ s.cfg.max_age < (e.age : Int) }

/-- Steps 1-7 of `train_step` on a sample (with at least two active nodes):
find the two nearest nodes `s1, s2`, accumulate the winner's squared error
(int32 add), move the winner by `eps_w` and each of its neighbors by
`eps_n`, create/refresh the `(s1, s2)` edge, age the edges incident to `s1`
and prune the over-aged ones. -/
def adaptPhase (s : GNG) (sample : List ℚ) : GNG :=
  let s1 := (find_two_nearest s sample).1
  let s2 := (find_two_nearest s sample).2
  let sA := { s with errors := s.errors.set s1 (wrap32 (s.errors.getD s1 0 + distance_squared s s1 sample)) }
  let sB := update_weights sA s1 sample sA.eps_w
  let sC := (get_neighbors sB s1).foldl
    (fun st n => update_weights st n sample st.eps_n) sB
  pruneAged (ageIncident (add_edge sC s1 s2) s1)

/-- `GNGLite.train_step(sample)`.  With fewer than 2 active nodes it simply
`return`s — the same plain `None` return as a completed step, with no
distinct status.  Otherwise: run the adaptation phase (steps 1-7), remove
isolated nodes (step 8), bump the iteration counter, insert a node every
`lambda_` iterations while below node capacity (step 9; `% 0` raises —
`none`), and decay all errors by `beta` (step 10). -/
def train_step (s : GNG) (sample : List ℚ) : Option GNG :=
  if s.nNodes < 2 then some s
  else
    match remove_isolated_nodes (adaptPhase s sample) with
    | none => none
    | some sG =>
      if s.cfg.lambda_ = 0 then none
      else if ((sG.iteration + 1 : Nat) : Int).fmod s.cfg.lambda_ = 0 ∧
          (sG.nNodes : Int) < s.cfg.max_nodes then
        match insert_node { sG with iteration := sG.iteration + 1 } with
        | none => none
        | some sI => some (decay_errors sI)
      else some (decay_errors { sG with iteration := sG.iteration + 1 })

/-- `GNGLite.initialize(data)` (renamed; the gate reserves the source's
name).  Fewer than 2 samples raises ValueError — `none` — before any
mutation, so the engine keeps its state.  The conversion loop writes
`weights[i, d]` for `i in range(2)`, `d in range(feature_dim)` into the
`max_nodes`-row array: with `feature_dim >= 1` and `max_nodes < 2` that
write raises IndexError — `none` (with `feature_dim = 0`, or
`feature_dim < 0`, the loop body never runs and nothing raises).
Otherwise `np.random.choice` draws two distinct row indices, modelled by
the explicit parameters `i`, `j`; the two rows are converted to fixed point
into slots 0 and 1, `n_nodes` becomes 2, and `add_edge(0, 1)` runs.  (The
error accumulators are not written by the source; slots 0 and 1 of the
preallocated array — zero unless a previous run left values there — become
the active prefix, modelled by `getD 0`.) -/
def initFromData (s : GNG) (data : List (List ℚ)) (i j : Nat) : Option GNG :=
  if data.length < 2 then none
  else if 0 < s.cfg.feature_dim ∧ s.cfg.max_nodes < 2 then none
  else
    let row : Nat → List Int := fun k =>
      (List.range s.cfg.feature_dim.toNat).map fun d =>
        float_to_fixed ((data.getD k []).getD d 0)
    some (add_edge
      { s with
        weights := [row i, row j]
        errors := [s.errors.getD 0 0, s.errors.getD 1 0] }
      0 1)

/-- Two edge records carry the same unordered endpoint pair. -/
def sameUPair (e f : Edge) : Prop :=
  (e.n1 = f.n1 ∧ e.n2 = f.n2) ∨ (e.n1 = f.n2 ∧ e.n2 = f.n1)

instance (e f : Edge) : Decidable (sameUPair e f) := by
  unfold sameUPair
  infer_instance

/-- The edge-list part of the invariant, at node bound `n`: endpoints below
`n`, stored normalized (`n1 < n2`, so in particular no self-loop), and no
two stored records carry the same unordered pair. -/
def EdgesOK (n : Nat) (es : List Edge) : Prop :=
  (∀ e ∈ es, e.n1 < n ∧ e.n2 < n ∧ e.n1 < e.n2) ∧
  es.Pairwise (fun e f => ¬ sameUPair e f)

/-- The full state invariant carried through the reachability induction. -/
def GNG.WF (s : GNG) : Prop :=
  (s.nNodes : Int) ≤ s.cfg.max_nodes ∧
  (s.nEdges : Int) ≤ s.cfg.max_edges ∧
  EdgesOK s.nNodes s.edges ∧
  s.errors.length = s.nNodes ∧
  s.cfg.max_nodes ≤ 65536

/-- States reachable from construction by the public mutating calls.  The
side conditions are the domain restrictions the amended C1 needs:
`add_edge` is called with in-range endpoints, the configuration's node
capacity fits the uint16 edge store, and re-initialization only happens
when the stored edges will remain in range (in particular as the first
call); `np.random.choice`'s two drawn indices are distinct and in range. -/
inductive Reachable : GNG → Prop where
  | construct : ∀ cfg s, mkGNGLite cfg = some s → cfg.max_nodes ≤ 65536 → Reachable s
  | addE : ∀ s a b, Reachable s → a < s.nNodes → b < s.nNodes →
      Reachable (add_edge s a b)
  | remE : ∀ s i, Reachable s → Reachable (remove_edge s i)
  | initl : ∀ s data i j s', Reachable s → (2 : Int) ≤ s.cfg.max_nodes →
      (∀ e ∈ s.edges, e.n1 < 2 ∧ e.n2 < 2) → i ≠ j →
      i < data.length → j < data.length →
      initFromData s data i j = some s' → Reachable s'
  | ins : ∀ s s', Reachable s → insert_node s = some s' → Reachable s'
  | step : ∀ s sample s', Reachable s → train_step s sample = some s' →
      Reachable s'

/-- The sort order `argsortIdx` realizes: smaller key first, ties by smaller
index. -/
def keyLE (key : Nat → Int) (i j : Nat) : Prop :=
  key i < key j ∨ (key i = key j ∧ i ≤ j)

/-! ### Concrete configurations and engines for witnesses and
counterexamples -/

/-- A configuration every field of which satisfies the validity conditions
of spec section 6 (rates 1 lie in the interval (0,1]). -/
def cfgStd : GNGLiteConfig :=
  { max_nodes := 4, max_edges := 8, feature_dim := 1,
    epsilon_winner := 1, epsilon_neighbor := 1, alpha := 1, beta := 1,
    max_age := 88, lambda_ := 300 }

/-- The engine `GNGLite(cfgStd)` constructs. -/
def gngFresh : GNG :=
  { cfg := cfgStd, weights := [], errors := [], edges := [], iteration := 0,
    eps_w := 65536, eps_n := 65536, alpha_fixed := 65536, beta_fixed := 65536 }

/-- A two-node engine over `cfgStd` (nodes at fixed-point 0.0 and 1.0,
connected by the initial edge), as produced by initialization. -/
def gngTwo : GNG :=
  { cfg := cfgStd, weights := [[0], [65536]], errors := [0, 0],
    edges := [⟨0, 1, 0⟩], iteration := 0,
    eps_w := 65536, eps_n := 65536, alpha_fixed := 65536, beta_fixed := 65536 }

/-- A configuration violating the spec's validity conditions
(`max_nodes = 1 < 2`); all other fields valid. -/
def cfgInvalid : GNGLiteConfig :=
  { max_nodes := 1, max_edges := 8, feature_dim := 1,
    epsilon_winner := 1, epsilon_neighbor := 1, alpha := 1, beta := 1,
    max_age := 88, lambda_ := 300 }

/-- A configuration at edge capacity 1, insertion every step. -/
def cfgCap : GNGLiteConfig :=
  { max_nodes := 4, max_edges := 1, feature_dim := 1,
    epsilon_winner := 1, epsilon_neighbor := 1, alpha := 1, beta := 1,
    max_age := 88, lambda_ := 1 }

/-- A two-node engine over `cfgCap`, its single edge slot full. -/
def gngCap : GNG :=
  { cfg := cfgCap, weights := [[0], [65536]], errors := [0, 0],
    edges := [⟨0, 1, 0⟩], iteration := 0,
    eps_w := 65536, eps_n := 65536, alpha_fixed := 65536, beta_fixed := 65536 }

/-- A two-sample dataset for the C10 witness. -/
def dataC10 : List (List ℚ) := [[0], [1]]

/-! ### Truncated division facts, for the fixed-point conversion -/

lemma neg_tmod (a b : Int) : (-a).tmod b = -(a.tmod b) := by
  have h1 := Int.tdiv_add_tmod a b
  have h2 := Int.tdiv_add_tmod (-a) b
  rw [Int.neg_tdiv, mul_neg] at h2
  omega

lemma abs_tmod_lt (a : Int) {b : Int} (hb : 0 < b) : |a.tmod b| < b := by
  rcases le_or_lt 0 a with ha | ha
  · rw [abs_of_nonneg (Int.tmod_nonneg b ha)]
    exact Int.tmod_lt_of_pos a hb
  · have h := Int.tmod_lt_of_pos (-a) hb
    have h0 := Int.tmod_nonneg b (by omega : (0:Int) ≤ -a)
    rw [neg_tmod] at h h0
    rw [abs_of_nonpos (by omega)]
    omega

lemma tdiv_mul_le_of_nonneg {a b : Int} (ha : 0 ≤ a) (_hb : 0 < b) :
    a.tdiv b * b ≤ a := by
  have hm : 0 ≤ a.tmod b := Int.tmod_nonneg b ha
  have hd := Int.tdiv_add_tmod a b
  rw [mul_comm]
  omega

lemma abs_tdiv_mul_le (a : Int) {b : Int} (hb : 0 < b) :
    |a.tdiv b| * b ≤ |a| := by
  rcases le_or_lt 0 a with ha | ha
  · rw [abs_of_nonneg (Int.tdiv_nonneg ha hb.le), abs_of_nonneg ha]
    exact tdiv_mul_le_of_nonneg ha hb
  · have h := tdiv_mul_le_of_nonneg (by omega : (0:Int) ≤ -a) hb
    rw [Int.neg_tdiv] at h
    have ht : a.tdiv b ≤ 0 := by
      have hn := Int.tdiv_nonneg (by omega : (0:Int) ≤ -a) hb.le
      rw [Int.neg_tdiv] at hn
      omega
    rw [abs_of_nonpos ht, abs_of_neg ha]
    omega

lemma abs_cast_tdiv_sub_div_lt (a : Int) {b : Int} (hb : 0 < b) :
    |((a.tdiv b : Int) : ℚ) - (a : ℚ) / (b : ℚ)| < 1 := by
  have hbQ : (0:ℚ) < (b:ℚ) := by exact_mod_cast hb
  have hd := Int.tdiv_add_tmod a b
  have hm := abs_tmod_lt a hb
  have key : ((a.tdiv b : Int) : ℚ) - (a : ℚ) / (b : ℚ) =
      -(((a.tmod b : Int) : ℚ) / (b : ℚ)) := by
    field_simp
    have : ((b : ℚ)) * ((a.tdiv b : Int) : ℚ) + ((a.tmod b : Int) : ℚ) = (a : ℚ) := by
      exact_mod_cast congrArg (fun z : Int => (z : ℚ)) hd
    linarith
  rw [key, abs_neg, abs_div, abs_of_pos hbQ, div_lt_one hbQ]
  exact_mod_cast hm

lemma abs_cast_tdiv_le (a : Int) {b : Int} (hb : 0 < b) :
    |((a.tdiv b : Int) : ℚ)| ≤ |(a : ℚ) / (b : ℚ)| := by
  have hbQ : (0:ℚ) < (b:ℚ) := by exact_mod_cast hb
  have h := abs_tdiv_mul_le a hb
  have hQ : |((a.tdiv b : Int) : ℚ)| * (b : ℚ) ≤ |(a : ℚ)| := by
    calc |((a.tdiv b : Int) : ℚ)| * (b : ℚ) = ((|a.tdiv b| * b : Int) : ℚ) := by
          push_cast; ring
    _ ≤ ((|a| : Int) : ℚ) := by exact_mod_cast h
    _ = |(a : ℚ)| := by push_cast; ring
  rw [abs_div, abs_of_pos hbQ, le_div_iff₀ hbQ]
  exact hQ

/-! ### C8: fixed-point round trip -/

/-- C8 (confirmed): for every rational `x` with `|x| < 32768 = 2^15` (the
safe Q16.16 range), `fixed_to_float (float_to_fixed x)` differs from `x` by
at most `1/65536`; `float_to_fixed` multiplies by 65536, truncates toward
zero and clamps to the int32 range (the clamp is inactive in this range). -/
theorem c8_round_trip (x : ℚ) (hx : |x| < 32768) :
    |fixed_to_float (float_to_fixed x) - x| ≤ 1 / 65536 := by
  have hb : 0 < (x.den : Int) := by exact_mod_cast x.pos
  have hdiv : ((x.num * 65536 : Int) : ℚ) / ((x.den : Int) : ℚ) = x * 65536 := by
    push_cast
    calc ((x.num : ℚ) * 65536) / (x.den : ℚ)
        = ((x.num : ℚ) / (x.den : ℚ)) * 65536 := by ring
      _ = x * 65536 := by rw [Rat.num_div_den]
  have hlt : |(((x.num * 65536 : Int).tdiv (x.den : Int) : Int) : ℚ) - x * 65536| < 1 := by
    have h := abs_cast_tdiv_sub_div_lt (x.num * 65536) hb
    rwa [hdiv] at h
  have hle : |(((x.num * 65536 : Int).tdiv (x.den : Int) : Int) : ℚ)| ≤ |x * 65536| := by
    have h := abs_cast_tdiv_le (x.num * 65536) hb
    rwa [hdiv] at h
  have h31 : |x * 65536| < 2 ^ 31 := by
    rw [abs_mul]
    have h65 : |(65536:ℚ)| = 65536 := by norm_num
    rw [h65]
    nlinarith [abs_nonneg x]
  have htI : |(x.num * 65536 : Int).tdiv (x.den : Int)| < 2 ^ 31 := by
    have htQ := lt_of_le_of_lt hle h31
    exact_mod_cast htQ
  have hclamp : float_to_fixed x = (x.num * 65536 : Int).tdiv (x.den : Int) := by
    have hb1 := abs_lt.mp htI
    unfold float_to_fixed clamp32 fpMin fpMax
    rw [min_eq_right (by omega), max_eq_right (by omega)]
  rw [hclamp]
  unfold fixed_to_float
  have heq : (((x.num * 65536 : Int).tdiv (x.den : Int) : Int) : ℚ) / 65536 - x =
      ((((x.num * 65536 : Int).tdiv (x.den : Int) : Int) : ℚ) - x * 65536) / 65536 := by
    ring
  rw [heq, abs_div]
  have h65 : |(65536:ℚ)| = 65536 := by norm_num
  rw [h65]
  have h1 := le_of_lt hlt
  gcongr

/-- Witness for C8 at `x = 5/2`. -/
theorem c8_round_trip_witness :
    |(mkRat 5 2 : ℚ)| < 32768 ∧
    |fixed_to_float (float_to_fixed (mkRat 5 2)) - mkRat 5 2| ≤ 1 / 65536 :=
  ⟨by decide, c8_round_trip (mkRat 5 2) (by decide)⟩

/-! ### C3: behaviour on fewer than 2 active nodes -/

/-- C3 (amended): with fewer than 2 active nodes `train_step` refuses to
search and returns at once with the state unchanged, but it signals nothing:
the return is the same plain completion (Python `None`, here `some s`) as a
successful step — there is no distinct result or status value. -/
theorem c3_silent_skip (s : GNG) (sample : List ℚ) (h : s.nNodes < 2) :
    train_step s sample = some s := by
  unfold train_step
  rw [if_pos h]

/-- Witness for C3's amended theorem at the freshly constructed engine. -/
theorem c3_silent_skip_witness :
    gngFresh.nNodes < 2 ∧ train_step gngFresh [(0:ℚ)] = some gngFresh :=
  ⟨by decide, c3_silent_skip gngFresh [(0:ℚ)] (by decide)⟩

/-- Counterexample to C3 as stated: a call with fewer than 2 active nodes
completes with exactly the same kind of result (`some`, i.e. a plain `None`
return with no exception) as a successful 2-node step, with the state
unchanged — no distinct "network collapsed" status exists anywhere in the
engine. -/
theorem c3_counterexample :
    gngFresh.nNodes < 2 ∧
    train_step gngFresh [(0:ℚ)] = some gngFresh ∧
    (train_step gngTwo [(0:ℚ)]).isSome = true := by decide

/-! ### C4: construction-time validation -/

/-- C4 (amended): construction succeeds exactly when the three array sizes
are nonnegative (numpy's `np.zeros` rejects negative dimensions); none of
the spec's validity conditions (`max_nodes >= 2`, `max_edges >= 1`,
`feature_dim >= 1`, rates in (0,1], `max_age >= 0`, `lambda_ >= 1`) is
checked at construction. -/
theorem c4_no_validation (cfg : GNGLiteConfig) :
    (mkGNGLite cfg).isSome = true ↔
      0 ≤ cfg.max_nodes ∧ 0 ≤ cfg.max_edges ∧ 0 ≤ cfg.feature_dim := by
  unfold mkGNGLite
  split <;> rename_i h <;> simp <;> omega

/-- Counterexample to C4 as stated: the invalid configuration
`max_nodes = 1` (spec demands `max_nodes >= 2`) is accepted at construction
without any error. -/
theorem c4_counterexample :
    cfgInvalid.max_nodes < 2 ∧ (mkGNGLite cfgInvalid).isSome = true := by decide

/-! ### C9: memory-usage accounting -/

/-- C9 (amended): `get_memory_usage` returns node bytes
`n_nodes * (feature_dim * 4 + 4)` and edge bytes `n_edges * 6`, but its
total is the sum of those two terms PLUS a constant 100-byte overhead term;
the function reads the state and mutates nothing (it is a pure function of
the state). -/
theorem c9_memory_accounting (s : GNG) :
    get_memory_usage s =
      ((s.nNodes : Int) * (s.cfg.feature_dim * 4 + 4), (s.nEdges : Int) * 6,
        (s.nNodes : Int) * (s.cfg.feature_dim * 4 + 4) + (s.nEdges : Int) * 6 + 100) := rfl

/-- Counterexample to C9 as stated: on the freshly constructed engine both
byte counts are 0 yet the reported total is 100, so the total is not the sum
of exactly the node and edge terms. -/
theorem c9_counterexample :
    (get_memory_usage gngFresh).1 = 0 ∧
    (get_memory_usage gngFresh).2.1 = 0 ∧
    (get_memory_usage gngFresh).2.2 = 100 ∧
    (get_memory_usage gngFresh).2.2 ≠
      (get_memory_usage gngFresh).1 + (get_memory_usage gngFresh).2.1 := by decide

/-! ### C1: reachable-state invariants (counterexample) -/

/-- Counterexample to C1 as stated: `add_edge` performs no bounds check, so
on the freshly constructed engine (0 active nodes) the public call
`add_edge(0, 1)` stores an edge whose endpoints are not below `n_nodes`. -/
theorem c1_counterexample :
    mkGNGLite cfgStd = some gngFresh ∧
    (add_edge gngFresh 0 1).nNodes = 0 ∧
    ¬ (∀ e ∈ (add_edge gngFresh 0 1).edges,
        e.n1 < (add_edge gngFresh 0 1).nNodes ∧
        e.n2 < (add_edge gngFresh 0 1).nNodes) := by decide

/-! ### Characterization of `add_edge` (C7) and `initFromData` (C10) -/

lemma resetAge_none_iff (a b : Nat) (es : List Edge) :
    resetAge a b es = none ↔ ∀ e ∈ es, ¬ (e.n1 = a ∧ e.n2 = b) := by
  induction es with
  | nil =>
    rw [show resetAge a b [] = none from rfl]
    simp
  | cons e t ih =>
    by_cases h : e.n1 = a ∧ e.n2 = b
    · simp [resetAge, h]
    · simp only [resetAge, if_neg h, List.mem_cons]
      constructor
      · intro hmap x hx
        rcases hx with hx | hx
        · subst hx; exact h
        · rcases hopt : resetAge a b t with _ | es'
          · exact (ih.mp hopt) x hx
          · rw [hopt] at hmap; simp at hmap
      · intro hall
        have : resetAge a b t = none := ih.mpr fun x hx => hall x (Or.inr hx)
        rw [this]; rfl

lemma resetAge_some_spec (a b : Nat) (es es' : List Edge)
    (h : resetAge a b es = some es') :
    ∃ k, k < es.length ∧
      (es.getD k ⟨0,0,0⟩).n1 = a ∧ (es.getD k ⟨0,0,0⟩).n2 = b ∧
      es' = es.set k { es.getD k ⟨0,0,0⟩ with age := 0 } := by
  induction es generalizing es' with
  | nil => simp [resetAge] at h
  | cons e t ih =>
    by_cases hh : e.n1 = a ∧ e.n2 = b
    · rw [resetAge, if_pos hh] at h
      have hes : es' = { e with age := 0 } :: t := (Option.some_inj.mp h).symm
      exact ⟨0, by simp, hh.1, hh.2, by simp [hes]⟩
    · rw [resetAge, if_neg hh] at h
      rcases hopt : resetAge a b t with _ | t'
      · rw [hopt] at h; simp at h
      · rw [hopt] at h
        have h' : some (e :: t') = some es' := h
        have hes : es' = e :: t' := (Option.some_inj.mp h').symm
        obtain ⟨k, hk, h1, h2, h3⟩ := ih t' hopt
        exact ⟨k + 1, by simpa using hk, by simpa using h1, by simpa using h2,
          by simp [hes, h3]⟩

/-- `add_edge` with the two `let`s of the source zeta-expanded, for
rewriting. -/
lemma add_edge_eq (s : GNG) (a b : Nat) (hab : a ≠ b) :
    add_edge s a b =
      match resetAge (min a b) (max a b) s.edges with
      | some es => { s with edges := es }
      | none =>
        if (s.edges.length : Int) < s.cfg.max_edges then
          { s with edges := s.edges ++ [⟨min a b % 65536, max a b % 65536, 0⟩] }
        else s := by
  unfold add_edge
  rw [if_neg hab]

/-- C7 (confirmed): for node indices `a ≠ b` (in the uint16 range the edge
store uses) on an engine whose stored edges are normalized (`n1 < n2`, true
of every reachable state): if the unordered edge `{a,b}` is stored,
`add_edge` resets the age of that record to 0 (leaving `n_edges` unchanged);
otherwise, if `n_edges < max_edges` it appends the record with age 0 and
`n_edges` grows by exactly 1; otherwise it is a no-op that changes no state
and raises nothing. -/
theorem c7_add_edge (s : GNG) (a b : Nat) (hnorm : ∀ e ∈ s.edges, e.n1 < e.n2)
    (hab : a ≠ b) (ha : a < 65536) (hb : b < 65536) :
    ((∃ e ∈ s.edges, sameUPair e ⟨min a b, max a b, 0⟩) →
       ∃ k, k < s.edges.length ∧
         (s.edges.getD k ⟨0,0,0⟩).n1 = min a b ∧
         (s.edges.getD k ⟨0,0,0⟩).n2 = max a b ∧
         (add_edge s a b).edges =
           s.edges.set k { s.edges.getD k ⟨0,0,0⟩ with age := 0 } ∧
         (add_edge s a b).nEdges = s.nEdges) ∧
    ((∀ e ∈ s.edges, ¬ sameUPair e ⟨min a b, max a b, 0⟩) →
       ((s.nEdges : Int) < s.cfg.max_edges →
          (add_edge s a b).edges = s.edges ++ [⟨min a b, max a b, 0⟩] ∧
          (add_edge s a b).nEdges = s.nEdges + 1) ∧
       (¬ (s.nEdges : Int) < s.cfg.max_edges → add_edge s a b = s)) := by
  have hmm : min a b < max a b := by omega
  have hpair : ∀ e ∈ s.edges,
      sameUPair e ⟨min a b, max a b, 0⟩ ↔ (e.n1 = min a b ∧ e.n2 = max a b) := by
    intro e he
    have hn := hnorm e he
    unfold sameUPair
    dsimp only
    constructor
    · rintro (h | h)
      · exact h
      · omega
    · exact Or.inl
  have hform := add_edge_eq s a b hab
  constructor
  · intro ⟨e, he, hsp⟩
    have hexists : ¬ resetAge (min a b) (max a b) s.edges = none := by
      rw [resetAge_none_iff]
      push_neg
      exact ⟨e, he, ((hpair e he).mp hsp).1, ((hpair e he).mp hsp).2⟩
    rcases hres : resetAge (min a b) (max a b) s.edges with _ | es'
    · exact absurd hres hexists
    · obtain ⟨k, hk, h1, h2, h3⟩ := resetAge_some_spec _ _ _ _ hres
      rw [hres] at hform
      have hresult : (add_edge s a b).edges =
          s.edges.set k { s.edges.getD k ⟨0,0,0⟩ with age := 0 } := by
        rw [hform, ← h3]
      refine ⟨k, hk, h1, h2, hresult, ?_⟩
      unfold GNG.nEdges
      rw [hresult, List.length_set]
  · intro habsent
    have hnone : resetAge (min a b) (max a b) s.edges = none := by
      rw [resetAge_none_iff]
      intro e he hc
      exact habsent e he ((hpair e he).mpr hc)
    rw [hnone] at hform
    have hminlt : min a b % 65536 = min a b :=
      Nat.mod_eq_of_lt (lt_of_le_of_lt (min_le_left a b) ha)
    have hmaxlt : max a b % 65536 = max a b := Nat.mod_eq_of_lt (max_lt ha hb)
    constructor
    · intro hcap
      have hcap' : (s.edges.length : Int) < s.cfg.max_edges := hcap
      rw [show (match (none : Option (List Edge)) with
          | some es => { s with edges := es }
          | none =>
            if (s.edges.length : Int) < s.cfg.max_edges then
              { s with edges := s.edges ++ [⟨min a b % 65536, max a b % 65536, 0⟩] }
            else s) =
          (if (s.edges.length : Int) < s.cfg.max_edges then
            { s with edges := s.edges ++ [⟨min a b % 65536, max a b % 65536, 0⟩] }
          else s) from rfl, if_pos hcap'] at hform
      have hresult : (add_edge s a b).edges = s.edges ++ [⟨min a b, max a b, 0⟩] := by
        rw [hform]
        show s.edges ++ [⟨min a b % 65536, max a b % 65536, 0⟩] = _
        rw [hminlt, hmaxlt]
      refine ⟨hresult, ?_⟩
      unfold GNG.nEdges
      rw [hresult, List.length_append, List.length_singleton]
    · intro hfull
      have hfull' : ¬ (s.edges.length : Int) < s.cfg.max_edges := hfull
      rw [show (match (none : Option (List Edge)) with
          | some es => { s with edges := es }
          | none =>
            if (s.edges.length : Int) < s.cfg.max_edges then
              { s with edges := s.edges ++ [⟨min a b % 65536, max a b % 65536, 0⟩] }
            else s) =
          (if (s.edges.length : Int) < s.cfg.max_edges then
            { s with edges := s.edges ++ [⟨min a b % 65536, max a b % 65536, 0⟩] }
          else s) from rfl, if_neg hfull'] at hform
      exact hform

/-- Witness for C7 at the claim's own scenario: `max_edges = 1`, one stored
edge, `add_edge` for a different pair. -/
theorem c7_add_edge_witness :
    ((∀ e ∈ gngCap.edges, e.n1 < e.n2) ∧ (0:Nat) ≠ 2 ∧ 0 < 65536 ∧ 2 < 65536) ∧
    ((∃ e ∈ gngCap.edges, sameUPair e ⟨min 0 2, max 0 2, 0⟩) →
       ∃ k, k < gngCap.edges.length ∧
         (gngCap.edges.getD k ⟨0,0,0⟩).n1 = min 0 2 ∧
         (gngCap.edges.getD k ⟨0,0,0⟩).n2 = max 0 2 ∧
         (add_edge gngCap 0 2).edges =
           gngCap.edges.set k { gngCap.edges.getD k ⟨0,0,0⟩ with age := 0 } ∧
         (add_edge gngCap 0 2).nEdges = gngCap.nEdges) ∧
    ((∀ e ∈ gngCap.edges, ¬ sameUPair e ⟨min 0 2, max 0 2, 0⟩) →
       ((gngCap.nEdges : Int) < gngCap.cfg.max_edges →
          (add_edge gngCap 0 2).edges = gngCap.edges ++ [⟨min 0 2, max 0 2, 0⟩] ∧
          (add_edge gngCap 0 2).nEdges = gngCap.nEdges + 1) ∧
       (¬ (gngCap.nEdges : Int) < gngCap.cfg.max_edges → add_edge gngCap 0 2 = gngCap)) :=
  ⟨⟨by decide, by decide, by decide, by decide⟩,
    c7_add_edge gngCap 0 2 (by decide) (by decide) (by decide) (by decide)⟩

lemma add_edge_nil (s : GNG) (h : s.edges = []) (hcap : 0 < s.cfg.max_edges) :
    add_edge s 0 1 = { s with edges := [⟨0, 1, 0⟩] } := by
  unfold add_edge
  rw [if_neg (by decide : ¬ (0:Nat) = 1)]
  rw [h]
  show (match resetAge (min 0 1) (max 0 1) [] with
    | some es => { s with edges := es }
    | none => _) = _
  rw [show resetAge (min 0 1) (max 0 1) [] = none from rfl]
  simp only [List.length_nil, Nat.cast_zero]
  rw [if_pos hcap]
  rfl

/-- C10 (confirmed): on a freshly constructed engine, feeding fewer than 2
samples raises ValueError (before any mutation, so counts stay 0); with at
least 2 samples and the two distinct drawn indices `i ≠ j`, exactly 2 nodes
are created from rows `i` and `j` and exactly one edge `(0, 1)` with age 0
(given edge capacity at least 1 and node capacity at least 2, both of which
the spec requires of every valid configuration: with `max_nodes < 2` and a
positive `feature_dim` the write to `weights[1, d]` raises IndexError
instead of creating anything). -/
theorem c10_initFromData (cfg : GNGLiteConfig) (s : GNG)
    (hmk : mkGNGLite cfg = some s) (hcap : 1 ≤ cfg.max_edges)
    (hnodes : 2 ≤ cfg.max_nodes)
    (data : List (List ℚ)) (i j : Nat) :
    (data.length < 2 →
       initFromData s data i j = none ∧ s.nNodes = 0 ∧ s.nEdges = 0) ∧
    (2 ≤ data.length → i ≠ j → i < data.length → j < data.length →
       ∃ s', initFromData s data i j = some s' ∧
         s'.nNodes = 2 ∧ s'.edges = [⟨0, 1, 0⟩] ∧
         s'.weights =
           [(List.range cfg.feature_dim.toNat).map
              (fun d => float_to_fixed ((data.getD i []).getD d 0)),
            (List.range cfg.feature_dim.toNat).map
              (fun d => float_to_fixed ((data.getD j []).getD d 0))]) := by
  unfold mkGNGLite at hmk
  split at hmk
  · exact absurd hmk (by simp)
  have hs := Option.some_inj.mp hmk
  have hedges : s.edges = [] := by rw [← hs]
  have hcfg : s.cfg = cfg := by rw [← hs]
  have hw : s.weights = [] := by rw [← hs]
  constructor
  · intro hlt
    refine ⟨?_, ?_, ?_⟩
    · unfold initFromData
      rw [if_pos hlt]
    · unfold GNG.nNodes
      rw [hw]
      rfl
    · unfold GNG.nEdges
      rw [hedges]
      rfl
  · intro h2 hij hi hj
    have hstep : add_edge
        { s with
          weights := [(List.range s.cfg.feature_dim.toNat).map
              (fun d => float_to_fixed ((data.getD i []).getD d 0)),
            (List.range s.cfg.feature_dim.toNat).map
              (fun d => float_to_fixed ((data.getD j []).getD d 0))]
          errors := [s.errors.getD 0 0, s.errors.getD 1 0] } 0 1 =
        { s with
          weights := [(List.range s.cfg.feature_dim.toNat).map
              (fun d => float_to_fixed ((data.getD i []).getD d 0)),
            (List.range s.cfg.feature_dim.toNat).map
              (fun d => float_to_fixed ((data.getD j []).getD d 0))]
          errors := [s.errors.getD 0 0, s.errors.getD 1 0]
          edges := [⟨0, 1, 0⟩] } := by
      rw [add_edge_nil]
      · exact hedges
      · show 0 < s.cfg.max_edges
        rw [hcfg]
        omega
    refine ⟨{ s with
        weights := [(List.range s.cfg.feature_dim.toNat).map
            (fun d => float_to_fixed ((data.getD i []).getD d 0)),
          (List.range s.cfg.feature_dim.toNat).map
            (fun d => float_to_fixed ((data.getD j []).getD d 0))]
        errors := [s.errors.getD 0 0, s.errors.getD 1 0]
        edges := [⟨0, 1, 0⟩] }, ?_, ?_, ?_, ?_⟩
    · unfold initFromData
      rw [if_neg (by omega),
        if_neg (show ¬ (0 < s.cfg.feature_dim ∧ s.cfg.max_nodes < 2) from
          fun hc => by rw [hcfg] at hc; omega)]
      show some (add_edge
          { s with
            weights := [(List.range s.cfg.feature_dim.toNat).map
                (fun d => float_to_fixed ((data.getD i []).getD d 0)),
              (List.range s.cfg.feature_dim.toNat).map
                (fun d => float_to_fixed ((data.getD j []).getD d 0))]
            errors := [s.errors.getD 0 0, s.errors.getD 1 0] } 0 1) = _
      rw [hstep]
    · rfl
    · rfl
    · show [(List.range s.cfg.feature_dim.toNat).map
          (fun d => float_to_fixed ((data.getD i []).getD d 0)),
        (List.range s.cfg.feature_dim.toNat).map
          (fun d => float_to_fixed ((data.getD j []).getD d 0))] = _
      rw [hcfg]

/-- Witness for C10 on the freshly constructed engine with a two-sample
dataset and drawn indices 0 and 1. -/
theorem c10_initFromData_witness :
    mkGNGLite cfgStd = some gngFresh ∧
    1 ≤ cfgStd.max_edges ∧
    2 ≤ cfgStd.max_nodes ∧
    2 ≤ dataC10.length ∧
    ∃ s', initFromData gngFresh dataC10 0 1 = some s' ∧
      s'.nNodes = 2 ∧ s'.edges = [⟨0, 1, 0⟩] ∧
      s'.weights =
        [(List.range cfgStd.feature_dim.toNat).map
           (fun d => float_to_fixed ((dataC10.getD 0 []).getD d 0)),
         (List.range cfgStd.feature_dim.toNat).map
           (fun d => float_to_fixed ((dataC10.getD 1 []).getD d 0))] :=
  ⟨by decide, by decide, by decide, by decide,
    (c10_initFromData cfgStd gngFresh (by decide) (by decide) (by decide)
        dataC10 0 1).2
      (by decide) (by decide) (by decide) (by decide)⟩

/-! ### Characterization of the stable argsort (C5) -/

lemma insertByKey_perm (key : Nat → Int) (i : Nat) (l : List Nat) :
    (insertByKey key i l).Perm (i :: l) := by
  induction l with
  | nil => exact List.Perm.refl _
  | cons j t ih =>
    unfold insertByKey
    by_cases h : key i < key j
    · rw [if_pos h]
    · rw [if_neg h]
      exact (ih.cons j).trans (List.Perm.swap i j t)

lemma insertByKey_sorted (key : Nat → Int) (i : Nat) (l : List Nat)
    (hlt : ∀ j ∈ l, j < i) (hs : l.Sorted (keyLE key)) :
    (insertByKey key i l).Sorted (keyLE key) := by
  induction l with
  | nil => simp [insertByKey]
  | cons j t ih =>
    rw [List.sorted_cons] at hs
    obtain ⟨hs1, hs2⟩ := hs
    unfold insertByKey
    by_cases h : key i < key j
    · rw [if_pos h, List.sorted_cons]
      refine ⟨?_, List.sorted_cons.mpr ⟨hs1, hs2⟩⟩
      intro b hb
      rcases List.mem_cons.mp hb with hb | hb
      · subst hb; exact Or.inl h
      · rcases hs1 b hb with hlt' | ⟨heq, _⟩
        · exact Or.inl (h.trans hlt')
        · exact Or.inl (heq ▸ h)
    · rw [if_neg h, List.sorted_cons]
      constructor
      · intro b hb
        have hb' : b ∈ i :: t := (insertByKey_perm key i t).mem_iff.mp hb
        rcases List.mem_cons.mp hb' with hb' | hb'
        · subst hb'
          rcases lt_or_eq_of_le (not_lt.mp h) with hlt' | heq
          · exact Or.inl hlt'
          · exact Or.inr ⟨heq, (hlt j (by simp)).le⟩
        · exact hs1 b hb'
      · exact ih (fun x hx => hlt x (by simp [hx])) hs2

lemma argsortIdx_succ (key : Nat → Int) (n : Nat) :
    argsortIdx key (n + 1) = insertByKey key n (argsortIdx key n) := by
  unfold argsortIdx
  rw [List.range_succ, List.foldl_append]
  rfl

lemma argsortIdx_perm (key : Nat → Int) (n : Nat) :
    (argsortIdx key n).Perm (List.range n) := by
  induction n with
  | zero => exact List.Perm.refl _
  | succ n ih =>
    rw [argsortIdx_succ, List.range_succ]
    exact ((insertByKey_perm key n _).trans (ih.cons n)).trans
      (List.perm_append_singleton n (List.range n)).symm

lemma argsortIdx_sorted (key : Nat → Int) (n : Nat) :
    (argsortIdx key n).Sorted (keyLE key) := by
  induction n with
  | zero => simp [argsortIdx]
  | succ n ih =>
    rw [argsortIdx_succ]
    refine insertByKey_sorted key n _ ?_ ih
    intro j hj
    exact List.mem_range.mp ((argsortIdx_perm key n).mem_iff.mp hj)

/-- The head and second element of the stable argsort: the head is the least
index attaining the minimal key; the second is the least index attaining the
minimal key among the remaining indices. -/
lemma argsortIdx_two_spec (key : Nat → Int) (n : Nat) (hn : 2 ≤ n) :
    (argsortIdx key n).getD 0 0 < n ∧
    (argsortIdx key n).getD 1 0 < n ∧
    (argsortIdx key n).getD 0 0 ≠ (argsortIdx key n).getD 1 0 ∧
    (∀ i < n, key ((argsortIdx key n).getD 0 0) ≤ key i) ∧
    (∀ i < n, key i = key ((argsortIdx key n).getD 0 0) →
      (argsortIdx key n).getD 0 0 ≤ i) ∧
    (∀ i < n, i ≠ (argsortIdx key n).getD 0 0 →
      key ((argsortIdx key n).getD 1 0) ≤ key i ∧
      (key i = key ((argsortIdx key n).getD 1 0) →
        (argsortIdx key n).getD 1 0 ≤ i)) := by
  have hperm := argsortIdx_perm key n
  have hsort := argsortIdx_sorted key n
  have hlen : (argsortIdx key n).length = n := by
    rw [hperm.length_eq, List.length_range]
  have hnd : (argsortIdx key n).Nodup := hperm.symm.nodup (List.nodup_range n)
  match hL : argsortIdx key n with
  | [] => rw [hL] at hlen; simp at hlen; omega
  | [x] => rw [hL] at hlen; simp at hlen; omega
  | x :: y :: t =>
    rw [hL] at hperm hsort hnd
    have hget0 : (x :: y :: t).getD 0 0 = x := rfl
    have hget1 : (x :: y :: t).getD 1 0 = y := rfl
    rw [hget0, hget1]
    rw [List.sorted_cons] at hsort
    obtain ⟨hx, hsort⟩ := hsort
    rw [List.sorted_cons] at hsort
    obtain ⟨hy, _⟩ := hsort
    have hmem : ∀ i, i < n → i ∈ x :: y :: t := by
      intro i hi
      exact hperm.symm.mem_iff.mp (List.mem_range.mpr hi)
    have hxy : x ≠ y := by
      rw [List.nodup_cons] at hnd
      exact fun hcon => hnd.1 (hcon ▸ List.mem_cons_self y t)
    have hxle : ∀ i < n, key x ≤ key i := by
      intro i hi
      rcases List.mem_cons.mp (hmem i hi) with h | h
      · subst h; exact le_refl _
      · rcases hx i h with h' | ⟨h', _⟩
        · exact h'.le
        · exact h'.le
    have hxtie : ∀ i < n, key i = key x → x ≤ i := by
      intro i hi heq
      rcases List.mem_cons.mp (hmem i hi) with h | h
      · subst h; exact le_refl _
      · rcases hx i h with h' | ⟨_, h'⟩
        · omega
        · exact h'
    refine ⟨?_, ?_, hxy, hxle, hxtie, ?_⟩
    · exact List.mem_range.mp (hperm.mem_iff.mp (List.mem_cons_self x (y :: t)))
    · exact List.mem_range.mp (hperm.mem_iff.mp (by simp))
    · intro i hi hne
      rcases List.mem_cons.mp (hmem i hi) with h | h
      · exact absurd h hne
      constructor
      · rcases List.mem_cons.mp h with h' | h'
        · subst h'; exact le_refl _
        · rcases hy i h' with h'' | ⟨h'', _⟩
          · exact h''.le
          · exact h''.le
      · intro heq
        rcases List.mem_cons.mp h with h' | h'
        · subst h'; exact le_refl _
        · rcases hy i h' with h'' | ⟨_, h''⟩
          · omega
          · exact h''

/-- C5 (amended): with at least two and at most 16 active nodes — the
regime in which numpy's default argsort runs its stable insertion sort, so
the model's tie order is the code's — `find_two_nearest` returns two
distinct active indices; the first minimizes the squared distance and is
the least index among the minimizers; the second minimizes it over the
remaining indices and is the least such.  With 17 or more active nodes
numpy partitions unstably and the choice among tied nodes is unspecified.
(The squared distance itself is the raw widened square-and-shift of
`distance_squared`, NOT the clamping `fixed_mul` of the arithmetic
unit.) -/
theorem c5_find_two_nearest (s : GNG) (sample : List ℚ) (h2 : 2 ≤ s.nNodes)
    (_h16 : s.nNodes ≤ 16) :
    (find_two_nearest s sample).1 < s.nNodes ∧
    (find_two_nearest s sample).2 < s.nNodes ∧
    (find_two_nearest s sample).1 ≠ (find_two_nearest s sample).2 ∧
    (∀ i < s.nNodes,
      distance_squared s (find_two_nearest s sample).1 sample ≤
        distance_squared s i sample) ∧
    (∀ i < s.nNodes,
      distance_squared s i sample =
          distance_squared s (find_two_nearest s sample).1 sample →
        (find_two_nearest s sample).1 ≤ i) ∧
    (∀ i < s.nNodes, i ≠ (find_two_nearest s sample).1 →
      distance_squared s (find_two_nearest s sample).2 sample ≤
          distance_squared s i sample ∧
      (distance_squared s i sample =
          distance_squared s (find_two_nearest s sample).2 sample →
        (find_two_nearest s sample).2 ≤ i)) := by
  have e1 : (find_two_nearest s sample).1 =
      (argsortIdx (fun i => distance_squared s i sample) s.nNodes).getD 0 0 := rfl
  have e2 : (find_two_nearest s sample).2 =
      (argsortIdx (fun i => distance_squared s i sample) s.nNodes).getD 1 0 := rfl
  obtain ⟨hb, hc, hbc, hbest, htie, hsecond⟩ :=
    argsortIdx_two_spec (fun i => distance_squared s i sample) s.nNodes h2
  rw [e1, e2]
  exact ⟨hb, hc, hbc, hbest, htie, hsecond⟩

/-- Witness for C5's amended theorem at `gngTwo` and the origin sample. -/
theorem c5_find_two_nearest_witness :
    2 ≤ gngTwo.nNodes ∧ gngTwo.nNodes ≤ 16 ∧
    (find_two_nearest gngTwo [(0:ℚ)]).1 < gngTwo.nNodes ∧
    (find_two_nearest gngTwo [(0:ℚ)]).1 ≠ (find_two_nearest gngTwo [(0:ℚ)]).2 :=
  ⟨by decide, by decide,
    (c5_find_two_nearest gngTwo [(0:ℚ)] (by decide) (by decide)).1,
    (c5_find_two_nearest gngTwo [(0:ℚ)] (by decide) (by decide)).2.2.1⟩

/-- Counterexample to C5 as stated: the per-dimension squared terms are NOT
routed through the clamping `fixed_mul`.  At a node whose stored coordinate
is `2^30` (fixed-point 16384.0) and the origin sample, the source
accumulates the raw shifted square `2^44`, while the spec's clamped multiply
yields `2^31 - 1`. -/
theorem c5_counterexample :
    distance_squared { gngTwo with weights := [[2 ^ 30], [0]] } 0 [(0:ℚ)] = 2 ^ 44 ∧
    distance_squared_spec { gngTwo with weights := [[2 ^ 30], [0]] } 0 [(0:ℚ)] = 2 ^ 31 - 1 ∧
    (2 ^ 44 : Int) ≠ 2 ^ 31 - 1 := by decide

/-! ### The topology invariants (C1, C2, C6) -/

lemma edgesOK_mono {n m : Nat} (h : n ≤ m) {es : List Edge}
    (hok : EdgesOK n es) : EdgesOK m es :=
  ⟨fun e he => by have := hok.1 e he; omega, hok.2⟩

lemma edgesOK_sublist {n : Nat} {es es' : List Edge} (hsub : es'.Sublist es)
    (hok : EdgesOK n es) : EdgesOK n es' :=
  ⟨fun e he => hok.1 e (hsub.mem he), hok.2.sublist hsub⟩

/-- Transfer of `EdgesOK` along a pointwise endpoint-preserving rewrite of
the list (covers the age-reset and the age-increment steps). -/
lemma edgesOK_of_pointwise {n : Nat} {es es' : List Edge}
    (hlen : es'.length = es.length)
    (hpt : ∀ i, i < es.length →
      (es'.getD i ⟨0,0,0⟩).n1 = (es.getD i ⟨0,0,0⟩).n1 ∧
      (es'.getD i ⟨0,0,0⟩).n2 = (es.getD i ⟨0,0,0⟩).n2)
    (hok : EdgesOK n es) : EdgesOK n es' := by
  constructor
  · intro e he
    obtain ⟨i, hi, hei⟩ := List.mem_iff_getElem.mp he
    have hi' : i < es.length := hlen ▸ hi
    have hd' : es'.getD i ⟨0,0,0⟩ = e := by
      rw [List.getD_eq_getElem _ _ hi, hei]
    have hd : (es.getD i ⟨0,0,0⟩) ∈ es := by
      rw [List.getD_eq_getElem _ _ hi']
      exact List.getElem_mem hi'
    have := hok.1 _ hd
    have hpair := hpt i hi'
    rw [hd'] at hpair
    omega
  · rw [List.pairwise_iff_getElem]
    have hok2 := List.pairwise_iff_getElem.mp hok.2
    intro i j hi hj hij
    have hi' : i < es.length := hlen ▸ hi
    have hj' : j < es.length := hlen ▸ hj
    have hpi := hpt i hi'
    have hpj := hpt j hj'
    rw [List.getD_eq_getElem _ _ hi, List.getD_eq_getElem _ _ hi'] at hpi
    rw [List.getD_eq_getElem _ _ hj, List.getD_eq_getElem _ _ hj'] at hpj
    intro hsp
    apply hok2 i j hi' hj' hij
    unfold sameUPair at hsp ⊢
    omega

/-! ### Shape lemmas for the mutating operations -/

lemma add_edge_of_resetAge_none (s : GNG) (a b : Nat) (hab : a ≠ b)
    (hnone : resetAge (min a b) (max a b) s.edges = none) :
    add_edge s a b =
      if (s.edges.length : Int) < s.cfg.max_edges then
        { s with edges := s.edges ++ [⟨min a b % 65536, max a b % 65536, 0⟩] }
      else s := by
  rw [add_edge_eq s a b hab, hnone]

lemma add_edge_append_of_cap (s : GNG) (a b : Nat) (hab : a ≠ b)
    (hnone : resetAge (min a b) (max a b) s.edges = none)
    (hcap : (s.edges.length : Int) < s.cfg.max_edges) :
    add_edge s a b =
      { s with edges := s.edges ++ [⟨min a b % 65536, max a b % 65536, 0⟩] } := by
  rw [add_edge_of_resetAge_none s a b hab hnone, if_pos hcap]

lemma add_edge_noop_of_full (s : GNG) (a b : Nat) (hab : a ≠ b)
    (hnone : resetAge (min a b) (max a b) s.edges = none)
    (hcap : ¬ (s.edges.length : Int) < s.cfg.max_edges) :
    add_edge s a b = s := by
  rw [add_edge_of_resetAge_none s a b hab hnone, if_neg hcap]

lemma add_edge_is_edge_update (s : GNG) (a b : Nat) :
    ∃ es, add_edge s a b = { s with edges := es } := by
  by_cases hab : a = b
  · refine ⟨s.edges, ?_⟩
    unfold add_edge
    rw [if_pos hab]
  · rw [add_edge_eq s a b hab]
    split
    · exact ⟨_, rfl⟩
    · split
      · exact ⟨_, rfl⟩
      · exact ⟨s.edges, rfl⟩

lemma remove_edge_is_edge_update (s : GNG) (i : Nat) :
    ∃ es, remove_edge s i = { s with edges := es } ∧ es.Sublist s.edges := by
  unfold remove_edge
  split
  · exact ⟨_, rfl, List.eraseIdx_sublist _ _⟩
  · exact ⟨s.edges, rfl, List.Sublist.refl _⟩

lemma update_weights_nNodes (s : GNG) (i : Nat) (sample : List ℚ) (lr : Int) :
    (update_weights s i sample lr).nNodes = s.nNodes := by
  unfold GNG.nNodes update_weights
  exact List.length_set s.weights i _

lemma foldl_update_shape (sample : List ℚ) (l : List Nat) (st : GNG) :
    (l.foldl (fun st n => update_weights st n sample st.eps_n) st).edges = st.edges ∧
    (l.foldl (fun st n => update_weights st n sample st.eps_n) st).errors = st.errors ∧
    (l.foldl (fun st n => update_weights st n sample st.eps_n) st).cfg = st.cfg ∧
    (l.foldl (fun st n => update_weights st n sample st.eps_n) st).nNodes = st.nNodes ∧
    (l.foldl (fun st n => update_weights st n sample st.eps_n) st).iteration =
      st.iteration := by
  induction l generalizing st with
  | nil => exact ⟨rfl, rfl, rfl, rfl, rfl⟩
  | cons n t ih =>
    have hstep := ih (update_weights st n sample st.eps_n)
    refine ⟨?_, ?_, ?_, ?_, ?_⟩
    · exact hstep.1
    · exact hstep.2.1
    · exact hstep.2.2.1
    · rw [show ((n :: t).foldl (fun st n => update_weights st n sample st.eps_n) st) =
        (t.foldl (fun st n => update_weights st n sample st.eps_n)
          (update_weights st n sample st.eps_n)) from rfl]
      rw [hstep.2.2.2.1, update_weights_nNodes]
    · exact hstep.2.2.2.2

lemma argmax_foldl_lt (l : List Int) (li : List Nat) (acc : Nat)
    (hacc : acc < l.length) (hmem : ∀ x ∈ li, x < l.length) :
    li.foldl (fun best i => if l.getD best 0 < l.getD i 0 then i else best) acc <
      l.length := by
  induction li generalizing acc with
  | nil => exact hacc
  | cons x t ih =>
    refine ih _ ?_ (fun y hy => hmem y (by simp [hy]))
    show (if l.getD acc 0 < l.getD x 0 then x else acc) < l.length
    by_cases h : l.getD acc 0 < l.getD x 0
    · rw [if_pos h]; exact hmem x (by simp)
    · rw [if_neg h]; exact hacc

lemma argmaxIdx_lt (l : List Int) (h : l ≠ []) : argmaxIdx l < l.length := by
  unfold argmaxIdx
  exact argmax_foldl_lt l _ 0 (List.length_pos.mpr h) (fun x hx => List.mem_range.mp hx)

lemma argmaxKey_mem (key : Nat → Int) (x : Nat) (t : List Nat) :
    argmaxKey key x t ∈ x :: t := by
  unfold argmaxKey
  have hgen : ∀ (t' : List Nat) (acc : Nat), acc ∈ x :: t → (∀ y ∈ t', y ∈ x :: t) →
      t'.foldl (fun best m => if key best < key m then m else best) acc ∈ x :: t := by
    intro t'
    induction t' with
    | nil => exact fun acc hacc _ => hacc
    | cons z r ih =>
      intro acc hacc hmem
      refine ih _ ?_ (fun y hy => hmem y (by simp [hy]))
      show (if key acc < key z then z else acc) ∈ x :: t
      by_cases h : key acc < key z
      · rw [if_pos h]; exact hmem z (by simp)
      · rw [if_neg h]; exact hacc
  exact hgen t x (by simp) (fun y hy => by simp [hy])

lemma mem_get_neighbors (s : GNG) (q x : Nat) :
    x ∈ get_neighbors s q ↔
      ∃ e ∈ s.edges, (e.n1 = q ∧ e.n2 = x) ∨ (e.n2 = q ∧ e.n1 = x) := by
  unfold get_neighbors
  rw [List.mem_filterMap]
  constructor
  · rintro ⟨e, he, hfn⟩
    by_cases h1 : e.n1 = q
    · rw [if_pos h1] at hfn
      exact ⟨e, he, Or.inl ⟨h1, Option.some_inj.mp hfn⟩⟩
    · rw [if_neg h1] at hfn
      by_cases h2 : e.n2 = q
      · rw [if_pos h2] at hfn
        exact ⟨e, he, Or.inr ⟨h2, Option.some_inj.mp hfn⟩⟩
      · rw [if_neg h2] at hfn
        exact absurd hfn (by simp)
  · rintro ⟨e, he, h | h⟩
    · exact ⟨e, he, by rw [if_pos h.1, h.2]⟩
    · by_cases h1 : e.n1 = q
      · refine ⟨e, he, ?_⟩
        rw [if_pos h1, h.1]
        rw [← h.2, h1]
      · refine ⟨e, he, ?_⟩
        rw [if_neg h1, if_pos h.1, h.2]

/-! ### `add_edge` preserves the invariant -/

lemma add_edge_self (s : GNG) (a : Nat) : add_edge s a a = s := by
  unfold add_edge
  rw [if_pos rfl]

lemma add_edge_length_le (s : GNG) (a b : Nat)
    (h : (s.edges.length : Int) ≤ s.cfg.max_edges) :
    ((add_edge s a b).edges.length : Int) ≤ s.cfg.max_edges := by
  by_cases hab : a = b
  · rw [hab, add_edge_self]
    exact h
  · rw [add_edge_eq s a b hab]
    split
    · rename_i es' hres
      obtain ⟨k, hk, _, _, h3⟩ := resetAge_some_spec _ _ _ _ hres
      show ((es'.length : Nat) : Int) ≤ _
      rw [h3, List.length_set]
      exact h
    · split
      · rename_i hcap
        show (((s.edges ++ [(⟨min a b % 65536, max a b % 65536, 0⟩ : Edge)]).length : Nat) : Int) ≤
          s.cfg.max_edges
        rw [List.length_append, List.length_singleton]
        push_cast
        omega
      · exact h

lemma getD_set_self (l : List Edge) (k : Nat) (v d : Edge) (h : k < l.length) :
    (l.set k v).getD k d = v := by
  rw [List.getD_eq_getElem _ _ (by rw [List.length_set]; exact h)]
  exact List.getElem_set_self _

lemma getD_set_ne (l : List Edge) (k i : Nat) (v d : Edge) (hne : i ≠ k) :
    (l.set k v).getD i d = l.getD i d := by
  by_cases hi : i < l.length
  · rw [List.getD_eq_getElem _ _ (by rw [List.length_set]; exact hi),
      List.getD_eq_getElem _ _ hi]
    exact List.getElem_set_ne (by omega) _
  · rw [List.getD_eq_default _ _ (by rw [List.length_set]; omega),
      List.getD_eq_default _ _ (by omega)]

lemma add_edge_edgesOK (s : GNG) (a b n : Nat) (hok : EdgesOK n s.edges)
    (ha : a < n) (hb : b < n) (hab : a ≠ b) (hn : n ≤ 65536) :
    EdgesOK n (add_edge s a b).edges := by
  have hminlt : min a b % 65536 = min a b := Nat.mod_eq_of_lt (by omega)
  have hmaxlt : max a b % 65536 = max a b := Nat.mod_eq_of_lt (by omega)
  rw [add_edge_eq s a b hab]
  split
  · rename_i es' hres
    obtain ⟨k, hk, h1, h2, h3⟩ := resetAge_some_spec _ _ _ _ hres
    show EdgesOK n es'
    rw [h3]
    refine edgesOK_of_pointwise (List.length_set _ _ _) ?_ hok
    intro i hi
    by_cases hik : i = k
    · subst hik
      rw [getD_set_self _ _ _ _ hk]
      exact ⟨rfl, rfl⟩
    · rw [getD_set_ne _ _ _ _ _ hik]
      exact ⟨rfl, rfl⟩
  · rename_i hres
    split
    · rename_i hcap
      show EdgesOK n (s.edges ++ [⟨min a b % 65536, max a b % 65536, 0⟩])
      rw [hminlt, hmaxlt]
      have hnomatch := (resetAge_none_iff _ _ _).mp hres
      constructor
      · intro e he
        rcases List.mem_append.mp he with h | h
        · exact hok.1 e h
        · have : e = ⟨min a b, max a b, 0⟩ := by simpa using h
          subst this
          refine ⟨?_, ?_, ?_⟩
          · show min a b < n
            omega
          · show max a b < n
            omega
          · show min a b < max a b
            omega
      · rw [List.pairwise_append]
        refine ⟨hok.2, by simp, ?_⟩
        intro x hx y hy
        have hy' : y = ⟨min a b, max a b, 0⟩ := by simpa using hy
        subst hy'
        intro hsp
        have hxok := hok.1 x hx
        have hxno := hnomatch x hx
        unfold sameUPair at hsp
        rw [show (⟨min a b, max a b, 0⟩ : Edge).n1 = min a b from rfl,
          show (⟨min a b, max a b, 0⟩ : Edge).n2 = max a b from rfl] at hsp
        omega
    · exact hok

/-! ### Compaction lemmas (`remove_isolated_nodes`) -/

lemma usedB_iff (s : GNG) (v : Nat) :
    usedB s v = true ↔ ∃ e ∈ s.edges, e.n1 = v ∨ e.n2 = v := by
  unfold usedB
  rw [List.any_eq_true]
  constructor
  · rintro ⟨e, he, hP⟩
    exact ⟨e, he, by simpa using hP⟩
  · rintro ⟨e, he, hP⟩
    exact ⟨e, he, by simpa using hP⟩

lemma rank_succ (s : GNG) (v : Nat) :
    rank s (v + 1) = rank s v + (if usedB s v then 1 else 0) := by
  unfold rank
  rw [List.range_succ, List.filter_append, List.length_append]
  congr 1
  by_cases h : usedB s v = true
  · rw [if_pos h]
    simp [h]
  · rw [if_neg h]
    simp [Bool.of_not_eq_true h]

lemma rank_mono (s : GNG) {u v : Nat} (h : u ≤ v) : rank s u ≤ rank s v := by
  unfold rank
  exact ((List.range_sublist.mpr h).filter _).length_le

lemma rank_le_self (s : GNG) (v : Nat) : rank s v ≤ v := by
  unfold rank
  calc ((List.range v).filter (usedB s)).length ≤ (List.range v).length :=
        List.length_filter_le _ _
  _ = v := List.length_range v

lemma rank_lt_of_used (s : GNG) {u v : Nat} (hu : usedB s u = true) (huv : u < v) :
    rank s u < rank s v := by
  have h1 := rank_succ s u
  have h2 := rank_mono s (show u + 1 ≤ v from huv)
  rw [hu] at h1
  simp at h1
  omega

lemma rank_inj_used (s : GNG) {u v : Nat} (hu : usedB s u = true)
    (hv : usedB s v = true) (h : rank s u = rank s v) : u = v := by
  rcases Nat.lt_trichotomy u v with hlt | heq | hlt
  · exact absurd h (by have := rank_lt_of_used s hu hlt; omega)
  · exact heq
  · exact absurd h (by have := rank_lt_of_used s hv hlt; omega)

lemma compact_nNodes_eq (s : GNG) : (compactState s).nNodes = rank s s.nNodes := by
  unfold compactState GNG.nNodes rank
  rw [List.length_map]

lemma compact_nNodes_le (s : GNG) : (compactState s).nNodes ≤ s.nNodes := by
  rw [compact_nNodes_eq]
  exact rank_le_self s s.nNodes

lemma compact_errors_len (s : GNG) :
    (compactState s).errors.length = (compactState s).nNodes := by
  unfold compactState GNG.nNodes
  rw [List.length_map, List.length_map]

lemma compact_edges_len (s : GNG) : (compactState s).edges.length = s.edges.length := by
  unfold compactState
  exact List.length_map _ _

/-- The stored endpoint remap, for a used in-prefix slot, is its rank. -/
lemma remap_eq_rank (s : GNG) {v : Nat} (hv : v < s.nNodes) (hu : usedB s v = true)
    (hn : s.nNodes ≤ 65536) :
    ((if v < s.nNodes ∧ usedB s v then ((rank s v : Nat) : Int)
      else -1).emod 65536).toNat = rank s v := by
  rw [if_pos ⟨hv, hu⟩]
  show (((rank s v : Nat) : Int) % 65536).toNat = rank s v
  rw [Int.emod_eq_of_lt (by positivity) (by
    have h1 := rank_le_self s v
    have h2 : rank s v < 65536 := by omega
    exact_mod_cast h2)]
  exact Int.toNat_natCast _

lemma remove_isolated_eq (s : GNG)
    (hok : ∀ e ∈ s.edges, e.n1 < s.nNodes ∧ e.n2 < s.nNodes)
    (hmax : (s.nNodes : Int) ≤ s.cfg.max_nodes) :
    remove_isolated_nodes s = some (compactState s) := by
  unfold remove_isolated_nodes
  have hguard : (s.edges.any fun e =>
      s.cfg.max_nodes ≤ (e.n1 : Int) ∨ s.cfg.max_nodes ≤ (e.n2 : Int)) = false := by
    rw [List.any_eq_false]
    intro e he
    have h := hok e he
    simp only [decide_eq_true_eq]
    push_neg
    constructor <;> omega
  rw [hguard]
  rfl

lemma compact_edgesOK (s : GNG) (hok : EdgesOK s.nNodes s.edges)
    (hn : s.nNodes ≤ 65536) :
    EdgesOK (compactState s).nNodes (compactState s).edges := by
  rw [compact_nNodes_eq]
  have hused : ∀ e ∈ s.edges, usedB s e.n1 = true ∧ usedB s e.n2 = true := by
    intro e he
    exact ⟨(usedB_iff s e.n1).mpr ⟨e, he, Or.inl rfl⟩,
      (usedB_iff s e.n2).mpr ⟨e, he, Or.inr rfl⟩⟩
  constructor
  · intro e' he'
    obtain ⟨e, he, heq⟩ := List.mem_map.mp he'
    obtain ⟨h1, h2, h12⟩ := hok.1 e he
    obtain ⟨hu1, hu2⟩ := hused e he
    have r1 : e'.n1 = rank s e.n1 := by
      rw [← heq]
      exact remap_eq_rank s h1 hu1 hn
    have r2 : e'.n2 = rank s e.n2 := by
      rw [← heq]
      exact remap_eq_rank s h2 hu2 hn
    refine ⟨?_, ?_, ?_⟩
    · rw [r1]; exact rank_lt_of_used s hu1 h1
    · rw [r2]; exact rank_lt_of_used s hu2 h2
    · rw [r1, r2]; exact rank_lt_of_used s hu1 h12
  · show ((s.edges.map _).Pairwise _)
    rw [List.pairwise_map]
    refine hok.2.imp_of_mem ?_
    intro a b ha hb hnsp hsp'
    apply hnsp
    obtain ⟨ha1, ha2, _⟩ := hok.1 a ha
    obtain ⟨hb1, hb2, _⟩ := hok.1 b hb
    obtain ⟨hua1, hua2⟩ := hused a ha
    obtain ⟨hub1, hub2⟩ := hused b hb
    have ra1 := remap_eq_rank s ha1 hua1 hn
    have ra2 := remap_eq_rank s ha2 hua2 hn
    have rb1 := remap_eq_rank s hb1 hub1 hn
    have rb2 := remap_eq_rank s hb2 hub2 hn
    unfold sameUPair at hsp' ⊢
    dsimp only at hsp'
    rw [ra1, ra2, rb1, rb2] at hsp'
    rcases hsp' with ⟨x1, x2⟩ | ⟨x1, x2⟩
    · exact Or.inl ⟨rank_inj_used s hua1 hub1 x1, rank_inj_used s hua2 hub2 x2⟩
    · exact Or.inr ⟨rank_inj_used s hua1 hub2 x1, rank_inj_used s hua2 hub1 x2⟩

lemma filter_range_getD_spec (q : Nat → Bool) (n : Nat) :
    ∀ k, k < ((List.range n).filter q).length →
      q (((List.range n).filter q).getD k 0) = true ∧
      ((List.range n).filter q).getD k 0 < n ∧
      ((List.range ((((List.range n).filter q)).getD k 0)).filter q).length = k := by
  induction n with
  | zero => intro k hk; simp at hk
  | succ n ih =>
    intro k hk
    rw [List.range_succ, List.filter_append] at hk ⊢
    by_cases hq : q n
    · rw [show List.filter q [n] = [n] by simp [hq]] at hk ⊢
      by_cases hkl : k < ((List.range n).filter q).length
      · rw [List.getD_append _ _ _ _ hkl]
        have h := ih k hkl
        exact ⟨h.1, by omega, h.2.2⟩
      · have hkeq : k = ((List.range n).filter q).length := by
          rw [List.length_append, List.length_singleton] at hk
          omega
        subst hkeq
        rw [List.getD_append_right _ _ _ _ (le_refl _), Nat.sub_self]
        exact ⟨hq, Nat.lt_succ_self n, rfl⟩
    · rw [show List.filter q [n] = [] by simp [hq]] at hk ⊢
      rw [List.append_nil] at hk ⊢
      have h := ih k hk
      exact ⟨h.1, by omega, h.2.2⟩

/-- After compaction every active node has at least one incident edge: slot
`k` of the compacted prefix is the image of a used slot, and the edge that
used it was remapped onto `k`. -/
lemma compact_connected (s : GNG) (_hok : EdgesOK s.nNodes s.edges)
    (hn : s.nNodes ≤ 65536) :
    ∀ k, k < (compactState s).nNodes →
      ∃ e ∈ (compactState s).edges, e.n1 = k ∨ e.n2 = k := by
  intro k hk
  rw [compact_nNodes_eq] at hk
  have hk' : k < ((List.range s.nNodes).filter (usedB s)).length := hk
  obtain ⟨hq, hvlt, hrank⟩ := filter_range_getD_spec (usedB s) s.nNodes k hk'
  obtain ⟨e, he, hside⟩ := (usedB_iff s _).mp hq
  refine ⟨_, List.mem_map_of_mem _ he, ?_⟩
  have hrank' : rank s (((List.range s.nNodes).filter (usedB s)).getD k 0) = k := hrank
  rcases hside with h | h
  · left
    show ((if e.n1 < s.nNodes ∧ usedB s e.n1 then ((rank s e.n1 : Nat) : Int)
        else -1).emod 65536).toNat = k
    rw [h]
    rw [remap_eq_rank s hvlt hq hn]
    exact hrank'
  · right
    show ((if e.n2 < s.nNodes ∧ usedB s e.n2 then ((rank s e.n2 : Nat) : Int)
        else -1).emod 65536).toNat = k
    rw [h]
    rw [remap_eq_rank s hvlt hq hn]
    exact hrank'

/-! ### `insert_node`: effect and preservation -/

lemma findEdgeIdx_some_spec (es : List Edge) (q f : Nat) :
    ∀ k, findEdgeIdx es q f = some k →
      k < es.length ∧
      (((es.getD k ⟨0,0,0⟩).n1 = q ∧ (es.getD k ⟨0,0,0⟩).n2 = f) ∨
       ((es.getD k ⟨0,0,0⟩).n1 = f ∧ (es.getD k ⟨0,0,0⟩).n2 = q)) := by
  induction es with
  | nil => intro k hk; simp [findEdgeIdx] at hk
  | cons e t ih =>
    intro k hk
    unfold findEdgeIdx at hk
    by_cases hc : (e.n1 = q ∧ e.n2 = f) ∨ (e.n1 = f ∧ e.n2 = q)
    · rw [if_pos hc] at hk
      have hk0 : k = 0 := (Option.some_inj.mp hk).symm
      subst hk0
      exact ⟨by simp, hc⟩
    · rw [if_neg hc] at hk
      rcases hopt : findEdgeIdx t q f with _ | k'
      · rw [hopt] at hk; simp at hk
      · rw [hopt] at hk
        have hk' : some (k' + 1) = some k := hk
        have hkeq : k = k' + 1 := (Option.some_inj.mp hk').symm
        subst hkeq
        obtain ⟨hlt, hm⟩ := ih k' hopt
        exact ⟨by simp; omega, hm⟩

lemma findEdgeIdx_some_of_mem (es : List Edge) (q f : Nat) (e : Edge) (he : e ∈ es)
    (hm : (e.n1 = q ∧ e.n2 = f) ∨ (e.n1 = f ∧ e.n2 = q)) :
    ∃ k, findEdgeIdx es q f = some k := by
  induction es with
  | nil => simp at he
  | cons x t ih =>
    unfold findEdgeIdx
    by_cases hc : (x.n1 = q ∧ x.n2 = f) ∨ (x.n1 = f ∧ x.n2 = q)
    · exact ⟨0, by rw [if_pos hc]⟩
    · rcases List.mem_cons.mp he with he' | he'
      · subst he'; exact absurd hm hc
      · obtain ⟨k, hk⟩ := ih he'
        exact ⟨k + 1, by rw [if_neg hc, hk]; rfl⟩

lemma mem_eraseIdx_of_ne (es : List Edge) (k : Nat) (a : Edge)
    (ha : a ∈ es) (hne : a ≠ es.getD k ⟨0,0,0⟩) : a ∈ es.eraseIdx k := by
  induction es generalizing k with
  | nil => simp at ha
  | cons e t ih =>
    cases k with
    | zero =>
      rcases List.mem_cons.mp ha with h | h
      · exact absurd h hne
      · exact h
    | succ k =>
      rw [List.eraseIdx_cons_succ]
      rcases List.mem_cons.mp ha with h | h
      · exact h ▸ List.mem_cons_self _ _
      · exact List.mem_cons_of_mem _ (ih k h hne)

/-- Full effect of `insertStep` when the `(q,f)` edge is found at slot `k`:
weights and errors get the new node appended (midpoint weights, post-decay
error copy), and the edge list becomes the erased list plus the `(q, new)`
edge, plus the `(f, new)` edge exactly when the edge list was below
capacity (at capacity that second add is a silent no-op). -/
lemma insertStep_spec (s : GNG) (q f k : Nat)
    (hok : EdgesOK s.nNodes s.edges)
    (hlen : (s.edges.length : Int) ≤ s.cfg.max_edges)
    (hq : q < s.nNodes) (hf : f < s.nNodes) (hqf : q ≠ f)
    (hn65 : s.nNodes < 65536)
    (hfind : findEdgeIdx s.edges q f = some k) :
    (insertStep s q f).weights = s.weights ++
      [(List.range s.cfg.feature_dim.toNat).map fun d =>
        (wrap32 ((s.weights.getD q []).getD d 0 +
          (s.weights.getD f []).getD d 0)).fdiv 2] ∧
    (insertStep s q f).errors =
      ((s.errors.set q (fixed_mul (s.errors.getD q 0) s.alpha_fixed)).set f
        (fixed_mul ((s.errors.set q
          (fixed_mul (s.errors.getD q 0) s.alpha_fixed)).getD f 0) s.alpha_fixed)) ++
      [(((s.errors.set q (fixed_mul (s.errors.getD q 0) s.alpha_fixed)).set f
        (fixed_mul ((s.errors.set q
          (fixed_mul (s.errors.getD q 0) s.alpha_fixed)).getD f 0)
            s.alpha_fixed))).getD q 0] ∧
    (insertStep s q f).cfg = s.cfg ∧
    (insertStep s q f).iteration = s.iteration ∧
    (insertStep s q f).edges =
      (s.edges.eraseIdx k ++ [⟨q, s.nNodes, 0⟩]) ++
      (if (s.edges.length : Int) < s.cfg.max_edges
       then [⟨f, s.nNodes, 0⟩] else []) := by
  have hklen := (findEdgeIdx_some_spec s.edges q f k hfind).1
  have hcfg1 : (remove_edge s k).cfg = s.cfg := by
    obtain ⟨es1, h1, _⟩ := remove_edge_is_edge_update s k
    rw [h1]
  have hE1 : (remove_edge s k).edges = s.edges.eraseIdx k := by
    unfold remove_edge
    rw [if_pos hklen]
  have hE1sub : (s.edges.eraseIdx k).Sublist s.edges := List.eraseIdx_sublist _ _
  have hE1len : (s.edges.eraseIdx k).length = s.edges.length - 1 := by
    rw [List.length_eraseIdx, if_pos hklen]
  have hqmod : q % 65536 = q := Nat.mod_eq_of_lt (by omega)
  have hfmod : f % 65536 = f := Nat.mod_eq_of_lt (by omega)
  have hnmod : s.nNodes % 65536 = s.nNodes := Nat.mod_eq_of_lt hn65
  have hminq : min q s.nNodes = q := Nat.min_eq_left hq.le
  have hmaxq : max q s.nNodes = s.nNodes := Nat.max_eq_right hq.le
  have hminf : min f s.nNodes = f := Nat.min_eq_left hf.le
  have hmaxf : max f s.nNodes = s.nNodes := Nat.max_eq_right hf.le
  have hqn : q ≠ s.nNodes := by omega
  have hfn : f ≠ s.nNodes := by omega
  have hnone1 : resetAge (min q s.nNodes) (max q s.nNodes) (s.edges.eraseIdx k) = none := by
    rw [resetAge_none_iff]
    intro e he hc
    have hb := hok.1 e (hE1sub.mem he)
    rw [hmaxq] at hc
    omega
  have hcapE : ((s.edges.eraseIdx k).length : Int) < s.cfg.max_edges := by
    rw [hE1len]
    have h1 : 1 ≤ s.edges.length := by omega
    push_cast [Nat.cast_sub h1]
    omega
  have hn1 : resetAge (min q s.nNodes) (max q s.nNodes) (remove_edge s k).edges = none := by
    rw [hE1]
    exact hnone1
  have hc1 : ((remove_edge s k).edges.length : Int) < (remove_edge s k).cfg.max_edges := by
    rw [hE1, hcfg1]
    exact hcapE
  have hs2 : (add_edge (remove_edge s k) q s.nNodes).edges =
      s.edges.eraseIdx k ++ [⟨q, s.nNodes, 0⟩] := by
    rw [add_edge_append_of_cap _ _ _ hqn hn1 hc1]
    show (remove_edge s k).edges ++
        [⟨min q s.nNodes % 65536, max q s.nNodes % 65536, 0⟩] = _
    rw [hE1, hminq, hmaxq, hqmod, hnmod]
  have hcfg2 : (add_edge (remove_edge s k) q s.nNodes).cfg = s.cfg := by
    obtain ⟨es2, h2⟩ := add_edge_is_edge_update (remove_edge s k) q s.nNodes
    rw [h2]
    show (remove_edge s k).cfg = s.cfg
    exact hcfg1
  have hlen2 : ((add_edge (remove_edge s k) q s.nNodes).edges.length : Nat) =
      s.edges.length := by
    rw [hs2, List.length_append, List.length_singleton, hE1len]
    omega
  have hnone2 : resetAge (min f s.nNodes) (max f s.nNodes)
      (add_edge (remove_edge s k) q s.nNodes).edges = none := by
    rw [hs2, resetAge_none_iff]
    intro e he hc
    rcases List.mem_append.mp he with h | h
    · have hb := hok.1 e (hE1sub.mem h)
      rw [hmaxf] at hc
      omega
    · have he' : e = ⟨q, s.nNodes, 0⟩ := by simpa using h
      subst he'
      rw [hminf] at hc
      exact hqf (by simpa using hc.1)
  have hs3 : (add_edge (add_edge (remove_edge s k) q s.nNodes) f s.nNodes).edges =
      (s.edges.eraseIdx k ++ [⟨q, s.nNodes, 0⟩]) ++
        (if (s.edges.length : Int) < s.cfg.max_edges then [⟨f, s.nNodes, 0⟩] else []) := by
    by_cases hcap : (s.edges.length : Int) < s.cfg.max_edges
    · have hc2 : ((add_edge (remove_edge s k) q s.nNodes).edges.length : Int) <
          (add_edge (remove_edge s k) q s.nNodes).cfg.max_edges := by
        rw [hlen2, hcfg2]
        exact hcap
      rw [add_edge_append_of_cap _ _ _ hfn hnone2 hc2]
      show (add_edge (remove_edge s k) q s.nNodes).edges ++
          [⟨min f s.nNodes % 65536, max f s.nNodes % 65536, 0⟩] = _
      rw [hs2, hminf, hmaxf, hfmod, hnmod, if_pos hcap]
    · have hc2 : ¬ ((add_edge (remove_edge s k) q s.nNodes).edges.length : Int) <
          (add_edge (remove_edge s k) q s.nNodes).cfg.max_edges := by
        rw [hlen2, hcfg2]
        exact hcap
      rw [add_edge_noop_of_full _ _ _ hfn hnone2 hc2]
      rw [hs2, if_neg hcap, List.append_nil]
  have hedges0 : (insertStep s q f).edges =
      (add_edge (add_edge (remove_edge s k) q s.nNodes) f s.nNodes).edges := by
    show (add_edge (add_edge (match findEdgeIdx s.edges q f with
        | some k => remove_edge s k
        | none => s) q s.nNodes) f s.nNodes).edges = _
    rw [hfind]
  have hcfg0 : (insertStep s q f).cfg = s.cfg := by
    have h0 : (insertStep s q f).cfg =
        (add_edge (add_edge (remove_edge s k) q s.nNodes) f s.nNodes).cfg := by
      show (add_edge (add_edge (match findEdgeIdx s.edges q f with
          | some k => remove_edge s k
          | none => s) q s.nNodes) f s.nNodes).cfg = _
      rw [hfind]
    rw [h0]
    obtain ⟨es3, h3⟩ := add_edge_is_edge_update
      (add_edge (remove_edge s k) q s.nNodes) f s.nNodes
    rw [h3]
    show (add_edge (remove_edge s k) q s.nNodes).cfg = s.cfg
    exact hcfg2
  have hiter0 : (insertStep s q f).iteration = s.iteration := by
    have h0 : (insertStep s q f).iteration =
        (add_edge (add_edge (remove_edge s k) q s.nNodes) f s.nNodes).iteration := by
      show (add_edge (add_edge (match findEdgeIdx s.edges q f with
          | some k => remove_edge s k
          | none => s) q s.nNodes) f s.nNodes).iteration = _
      rw [hfind]
    rw [h0]
    obtain ⟨es3, h3⟩ := add_edge_is_edge_update
      (add_edge (remove_edge s k) q s.nNodes) f s.nNodes
    rw [h3]
    show (add_edge (remove_edge s k) q s.nNodes).iteration = s.iteration
    obtain ⟨es2, h2⟩ := add_edge_is_edge_update (remove_edge s k) q s.nNodes
    rw [h2]
    show (remove_edge s k).iteration = s.iteration
    obtain ⟨es1, h1, _⟩ := remove_edge_is_edge_update s k
    rw [h1]
  exact ⟨rfl, rfl, hcfg0, hiter0, hedges0.trans hs3⟩

lemma insert_edges_ok (n : Nat) (E1 : List Edge) (q f : Nat)
    (hok : EdgesOK n E1) (hq : q < n) (hf : f < n) (hqf : q ≠ f) (l2 : List Edge)
    (hl2 : l2 = [] ∨ l2 = [⟨f, n, 0⟩]) :
    EdgesOK (n + 1) ((E1 ++ [⟨q, n, 0⟩]) ++ l2) := by
  constructor
  · intro e he
    rcases List.mem_append.mp he with h | h
    · rcases List.mem_append.mp h with h' | h'
      · obtain ⟨a1, a2, a3⟩ := hok.1 e h'
        exact ⟨by omega, by omega, a3⟩
      · have he' : e = ⟨q, n, 0⟩ := by simpa using h'
        subst he'
        refine ⟨?_, ?_, ?_⟩
        · show q < n + 1
          omega
        · show n < n + 1
          omega
        · show q < n
          exact hq
    · rcases hl2 with h2 | h2
      · rw [h2] at h
        simp at h
      · rw [h2] at h
        have he' : e = ⟨f, n, 0⟩ := by simpa using h
        subst he'
        refine ⟨?_, ?_, ?_⟩
        · show f < n + 1
          omega
        · show n < n + 1
          omega
        · show f < n
          exact hf
  · rw [List.pairwise_append]
    refine ⟨?_, ?_, ?_⟩
    · rw [List.pairwise_append]
      refine ⟨hok.2, by simp, ?_⟩
      intro x hx y hy
      have hy' : y = ⟨q, n, 0⟩ := by simpa using hy
      subst hy'
      intro hsp
      obtain ⟨b1, b2, _⟩ := hok.1 x hx
      unfold sameUPair at hsp
      rw [show (⟨q, n, 0⟩ : Edge).n1 = q from rfl,
        show (⟨q, n, 0⟩ : Edge).n2 = n from rfl] at hsp
      omega
    · rcases hl2 with h2 | h2 <;> rw [h2] <;> simp
    · intro x hx y hy
      rcases hl2 with h2 | h2
      · rw [h2] at hy
        simp at hy
      · rw [h2] at hy
        have hy' : y = ⟨f, n, 0⟩ := by simpa using hy
        subst hy'
        intro hsp
        unfold sameUPair at hsp
        rw [show (⟨f, n, 0⟩ : Edge).n1 = f from rfl,
          show (⟨f, n, 0⟩ : Edge).n2 = n from rfl] at hsp
        rcases List.mem_append.mp hx with h | h
        · obtain ⟨b1, b2, _⟩ := hok.1 x h
          omega
        · have hx' : x = ⟨q, n, 0⟩ := by simpa using h
          subst hx'
          rw [show (⟨q, n, 0⟩ : Edge).n1 = q from rfl,
            show (⟨q, n, 0⟩ : Edge).n2 = n from rfl] at hsp
          omega

lemma insert_node_WF (s s' : GNG) (hWF : s.WF) (h : insert_node s = some s') :
    s'.WF := by
  obtain ⟨hmaxn, hmaxe, hok, herr, h65⟩ := hWF
  unfold insert_node at h
  by_cases hcap : s.cfg.max_nodes ≤ (s.nNodes : Int)
  · rw [if_pos hcap] at h
    rw [← Option.some_inj.mp h]
    exact ⟨hmaxn, hmaxe, hok, herr, h65⟩
  · rw [if_neg hcap] at h
    by_cases hzero : s.nNodes = 0
    · rw [if_pos hzero] at h
      simp at h
    · rw [if_neg hzero] at h
      rcases hnb : get_neighbors s (argmaxIdx s.errors) with _ | ⟨n0, nrest⟩
      · rw [hnb] at h
        have hh : some s = some s' := h
        rw [← Option.some_inj.mp hh]
        exact ⟨hmaxn, hmaxe, hok, herr, h65⟩
      · rw [hnb] at h
        have hs' : some (insertStep s (argmaxIdx s.errors)
            (argmaxKey (fun n => s.errors.getD n 0) n0 nrest)) = some s' := h
        have hq : argmaxIdx s.errors < s.nNodes := by
          have hne : s.errors ≠ [] := by
            intro hc
            rw [hc] at herr
            exact hzero herr.symm
          have := argmaxIdx_lt s.errors hne
          rw [herr] at this
          exact this
        have hfmem : argmaxKey (fun n => s.errors.getD n 0) n0 nrest ∈ n0 :: nrest :=
          argmaxKey_mem _ _ _
        rw [← hnb] at hfmem
        obtain ⟨e, he, hor⟩ := (mem_get_neighbors s _ _).mp hfmem
        obtain ⟨b1, b2, b3⟩ := hok.1 e he
        have hf : argmaxKey (fun n => s.errors.getD n 0) n0 nrest < s.nNodes := by
          rcases hor with ⟨_, h2⟩ | ⟨_, h2⟩
          · omega
          · omega
        have hqf : argmaxIdx s.errors ≠
            argmaxKey (fun n => s.errors.getD n 0) n0 nrest := by
          rcases hor with ⟨h1, h2⟩ | ⟨h1, h2⟩
          · omega
          · omega
        obtain ⟨k, hk⟩ := findEdgeIdx_some_of_mem s.edges _ _ e he (by
          rcases hor with ⟨h1, h2⟩ | ⟨h1, h2⟩
          · exact Or.inl ⟨h1, h2⟩
          · exact Or.inr ⟨h2, h1⟩)
        have hn65 : s.nNodes < 65536 := by
          push_neg at hcap
          omega
        obtain ⟨hw, herrs, hcfg, _, hed⟩ :=
          insertStep_spec s _ _ k hok hmaxe hq hf hqf hn65 hk
        have hklen := (findEdgeIdx_some_spec s.edges _ _ k hk).1
        rw [← Option.some_inj.mp hs']
        have hnn : (insertStep s (argmaxIdx s.errors)
            (argmaxKey (fun n => s.errors.getD n 0) n0 nrest)).nNodes =
            s.nNodes + 1 := by
          unfold GNG.nNodes
          rw [hw, List.length_append, List.length_singleton]
        refine ⟨?_, ?_, ?_, ?_, ?_⟩
        · rw [hnn, hcfg]
          push_neg at hcap
          push_cast
          omega
        · show ((insertStep s _ _).edges.length : Int) ≤ _
          rw [hed, hcfg]
          rw [List.length_append, List.length_append, List.length_singleton,
            List.length_eraseIdx, if_pos hklen]
          have h1 : 1 ≤ s.edges.length := by omega
          have hmaxe' : (s.edges.length : Int) ≤ s.cfg.max_edges := hmaxe
          by_cases hcap2 : (s.edges.length : Int) < s.cfg.max_edges
          · rw [if_pos hcap2]
            rw [List.length_singleton]
            push_cast [Nat.cast_sub h1]
            omega
          · rw [if_neg hcap2]
            rw [List.length_nil]
            push_cast [Nat.cast_sub h1]
            omega
        · rw [hnn]
          show EdgesOK (s.nNodes + 1) (insertStep s _ _).edges
          rw [hed]
          refine insert_edges_ok s.nNodes _ _ _
            (edgesOK_sublist (List.eraseIdx_sublist _ _) hok) hq hf hqf _ ?_
          by_cases hcap2 : (s.edges.length : Int) < s.cfg.max_edges
          · rw [if_pos hcap2]
            right
            rfl
          · rw [if_neg hcap2]
            left
            rfl
        · rw [herrs, hnn]
          rw [List.length_append, List.length_singleton, List.length_set,
            List.length_set, herr]
        · rw [hcfg]
          exact h65

/-! ### The operations preserve the invariant -/

lemma WF_of_fields_eq (a b : GNG) (hw : a.weights.length = b.weights.length)
    (he : a.edges = b.edges) (herr : a.errors.length = b.errors.length)
    (hc : a.cfg = b.cfg) (hWF : b.WF) : a.WF := by
  obtain ⟨h1, h2, h3, h4, h5⟩ := hWF
  refine ⟨?_, ?_, ?_, ?_, ?_⟩
  · show ((a.weights.length : Nat) : Int) ≤ a.cfg.max_nodes
    rw [hw, hc]
    exact h1
  · show ((a.edges.length : Nat) : Int) ≤ a.cfg.max_edges
    rw [he, hc]
    exact h2
  · show EdgesOK a.weights.length a.edges
    rw [hw, he]
    exact h3
  · show a.errors.length = a.weights.length
    rw [herr, hw]
    exact h4
  · rw [hc]
    exact h5

lemma add_edge_WF (s : GNG) (a b : Nat) (hWF : s.WF)
    (ha : a < s.nNodes) (hb : b < s.nNodes) : (add_edge s a b).WF := by
  obtain ⟨hmaxn, hmaxe, hok, herr, h65⟩ := hWF
  by_cases hab : a = b
  · rw [hab, add_edge_self]
    exact ⟨hmaxn, hmaxe, hok, herr, h65⟩
  · have hn65 : s.nNodes ≤ 65536 := by omega
    have hok' := add_edge_edgesOK s a b s.nNodes hok ha hb hab hn65
    have hlen' := add_edge_length_le s a b hmaxe
    obtain ⟨es, hE⟩ := add_edge_is_edge_update s a b
    have hcfg : (add_edge s a b).cfg = s.cfg := by rw [hE]
    have hw : (add_edge s a b).weights = s.weights := by rw [hE]
    have herr' : (add_edge s a b).errors = s.errors := by rw [hE]
    have hnn : (add_edge s a b).nNodes = s.nNodes := by
      unfold GNG.nNodes
      rw [hw]
    refine ⟨?_, ?_, ?_, ?_, ?_⟩
    · rw [hnn, hcfg]
      exact hmaxn
    · rw [hcfg]
      exact hlen'
    · rw [hnn]
      exact hok'
    · rw [herr', hnn]
      exact herr
    · rw [hcfg]
      exact h65

lemma remove_edge_WF (s : GNG) (i : Nat) (hWF : s.WF) : (remove_edge s i).WF := by
  obtain ⟨hmaxn, hmaxe, hok, herr, h65⟩ := hWF
  obtain ⟨es, hE, hsub⟩ := remove_edge_is_edge_update s i
  rw [hE]
  refine ⟨hmaxn, ?_, ?_, herr, h65⟩
  · show ((es.length : Nat) : Int) ≤ s.cfg.max_edges
    have := hsub.length_le
    have hc : ((es.length : Nat) : Int) ≤ ((s.edges.length : Nat) : Int) := by
      exact_mod_cast this
    exact hc.trans hmaxe
  · exact edgesOK_sublist hsub hok

lemma errSet_WF (s : GNG) (i : Nat) (v : Int) (hWF : s.WF) :
    GNG.WF { s with errors := s.errors.set i v } := by
  refine WF_of_fields_eq _ s rfl rfl ?_ rfl hWF
  show (s.errors.set i v).length = s.errors.length
  exact List.length_set _ _ _

lemma update_weights_WF (s : GNG) (i : Nat) (sample : List ℚ) (lr : Int)
    (hWF : s.WF) : (update_weights s i sample lr).WF := by
  refine WF_of_fields_eq _ s ?_ rfl rfl rfl hWF
  show ((update_weights s i sample lr).weights.length) = s.weights.length
  unfold update_weights
  exact List.length_set _ _ _

lemma foldl_update_WF (sample : List ℚ) (l : List Nat) (st : GNG) (hWF : st.WF) :
    (l.foldl (fun st n => update_weights st n sample st.eps_n) st).WF := by
  induction l generalizing st with
  | nil => exact hWF
  | cons n t ih => exact ih _ (update_weights_WF _ _ _ _ hWF)

lemma ageIncident_WF (s : GNG) (s1 : Nat) (hWF : s.WF) : (ageIncident s s1).WF := by
  obtain ⟨hmaxn, hmaxe, hok, herr, h65⟩ := hWF
  refine ⟨hmaxn, ?_, ?_, herr, h65⟩
  · show (((s.edges.map _).length : Nat) : Int) ≤ s.cfg.max_edges
    rw [List.length_map]
    exact hmaxe
  · show EdgesOK s.nNodes (s.edges.map _)
    refine edgesOK_of_pointwise (List.length_map _ _) ?_ hok
    intro i hi
    rw [List.getD_eq_getElem _ _ (by rw [List.length_map]; exact hi),
      List.getD_eq_getElem _ _ hi, List.getElem_map]
    constructor
    · by_cases hc : s.edges[i].n1 = s1 ∨ s.edges[i].n2 = s1
      · rw [if_pos hc]
      · rw [if_neg hc]
    · by_cases hc : s.edges[i].n1 = s1 ∨ s.edges[i].n2 = s1
      · rw [if_pos hc]
      · rw [if_neg hc]

lemma pruneAged_WF (s : GNG) (hWF : s.WF) : (pruneAged s).WF := by
  obtain ⟨hmaxn, hmaxe, hok, herr, h65⟩ := hWF
  refine ⟨hmaxn, ?_, ?_, herr, h65⟩
  · show (((s.edges.filter
        (fun e => decide (¬ s.cfg.max_age < (e.age : Int)))).length : Nat) : Int) ≤
      s.cfg.max_edges
    have h := List.length_filter_le
      (fun e => decide (¬ s.cfg.max_age < (e.age : Int))) s.edges
    have hc : (((s.edges.filter
        (fun e => decide (¬ s.cfg.max_age < (e.age : Int)))).length : Nat) : Int) ≤
        ((s.edges.length : Nat) : Int) := by
      exact_mod_cast h
    exact hc.trans hmaxe
  · exact edgesOK_sublist (List.filter_sublist _) hok

lemma decay_errors_WF (s : GNG) (hWF : s.WF) : (decay_errors s).WF := by
  refine WF_of_fields_eq _ s rfl rfl ?_ rfl hWF
  show (s.errors.map _).length = s.errors.length
  exact List.length_map _ _

lemma remove_isolated_WF (s s' : GNG) (hWF : s.WF)
    (h : remove_isolated_nodes s = some s') : s'.WF := by
  unfold remove_isolated_nodes at h
  split at h
  · simp at h
  · obtain ⟨hmaxn, hmaxe, hok, herr, h65⟩ := hWF
    have hn65 : s.nNodes ≤ 65536 := by omega
    rw [← Option.some_inj.mp h]
    refine ⟨?_, ?_, ?_, ?_, ?_⟩
    · show ((compactState s).nNodes : Int) ≤ s.cfg.max_nodes
      have hle := compact_nNodes_le s
      have hc : ((compactState s).nNodes : Int) ≤ (s.nNodes : Int) := by
        exact_mod_cast hle
      exact hc.trans hmaxn
    · show (((compactState s).edges.length : Nat) : Int) ≤ s.cfg.max_edges
      rw [compact_edges_len]
      exact hmaxe
    · exact compact_edgesOK s hok hn65
    · exact compact_errors_len s
    · exact h65

lemma find_two_nearest_bounds (s : GNG) (sample : List ℚ) (h2 : 2 ≤ s.nNodes) :
    (find_two_nearest s sample).1 < s.nNodes ∧
    (find_two_nearest s sample).2 < s.nNodes ∧
    (find_two_nearest s sample).1 ≠ (find_two_nearest s sample).2 := by
  obtain ⟨hb, hc, hbc, _, _, _⟩ :=
    argsortIdx_two_spec (fun i => distance_squared s i sample) s.nNodes h2
  exact ⟨hb, hc, hbc⟩

lemma adaptPhase_WF (s : GNG) (sample : List ℚ) (h2n : 2 ≤ s.nNodes)
    (hWF : s.WF) : (adaptPhase s sample).WF := by
  obtain ⟨hb, hc, hbc⟩ := find_two_nearest_bounds s sample h2n
  unfold adaptPhase
  refine pruneAged_WF _ (ageIncident_WF _ _ (add_edge_WF _ _ _ ?_ ?_ ?_))
  · exact foldl_update_WF sample _ _
      (update_weights_WF _ _ _ _ (errSet_WF s _ _ hWF))
  · rw [(foldl_update_shape sample _ _).2.2.2.1, update_weights_nNodes]
    show (find_two_nearest s sample).1 < s.nNodes
    exact hb
  · rw [(foldl_update_shape sample _ _).2.2.2.1, update_weights_nNodes]
    show (find_two_nearest s sample).2 < s.nNodes
    exact hc

lemma train_step_WF (s s' : GNG) (sample : List ℚ) (hWF : s.WF)
    (h : train_step s sample = some s') : s'.WF := by
  unfold train_step at h
  by_cases hlt : s.nNodes < 2
  · rw [if_pos hlt] at h
    rw [← Option.some_inj.mp h]
    exact hWF
  · rw [if_neg hlt] at h
    rcases hri : remove_isolated_nodes (adaptPhase s sample) with _ | sG
    · rw [hri] at h
      simp at h
    · rw [hri] at h
      have hG : sG.WF :=
        remove_isolated_WF _ _ (adaptPhase_WF s sample (by omega) hWF) hri
      have hH : GNG.WF { sG with iteration := sG.iteration + 1 } :=
        WF_of_fields_eq _ sG rfl rfl rfl rfl hG
      have h' : (if s.cfg.lambda_ = 0 then (none : Option GNG)
          else if ((sG.iteration + 1 : Nat) : Int).fmod s.cfg.lambda_ = 0 ∧
              (sG.nNodes : Int) < s.cfg.max_nodes then
            (match insert_node { sG with iteration := sG.iteration + 1 } with
              | none => none
              | some sI => some (decay_errors sI))
          else some (decay_errors { sG with iteration := sG.iteration + 1 })) =
          some s' := h
      by_cases hl0 : s.cfg.lambda_ = 0
      · rw [if_pos hl0] at h'
        simp at h'
      · rw [if_neg hl0] at h'
        by_cases hcond : ((sG.iteration + 1 : Nat) : Int).fmod s.cfg.lambda_ = 0 ∧
            (sG.nNodes : Int) < s.cfg.max_nodes
        · rw [if_pos hcond] at h'
          rcases hins : insert_node { sG with iteration := sG.iteration + 1 } with _ | sI
          · rw [hins] at h'
            simp at h'
          · rw [hins] at h'
            have hI := insert_node_WF _ _ hH hins
            have hfin : some (decay_errors sI) = some s' := h'
            rw [← Option.some_inj.mp hfin]
            exact decay_errors_WF _ hI
        · rw [if_neg hcond] at h'
          have hfin : some (decay_errors { sG with iteration := sG.iteration + 1 }) =
              some s' := h'
          rw [← Option.some_inj.mp hfin]
          exact decay_errors_WF _ hH

lemma mk_WF (cfg : GNGLiteConfig) (s : GNG) (h : mkGNGLite cfg = some s)
    (h65 : cfg.max_nodes ≤ 65536) : s.WF := by
  unfold mkGNGLite at h
  split at h
  · simp at h
  · rename_i hcond
    push_neg at hcond
    rw [← Option.some_inj.mp h]
    refine ⟨?_, ?_, ?_, ?_, ?_⟩
    · show ((0 : Nat) : Int) ≤ cfg.max_nodes
      omega
    · show ((0 : Nat) : Int) ≤ cfg.max_edges
      omega
    · exact ⟨by simp, by simp⟩
    · rfl
    · exact h65

lemma initFromData_WF (s : GNG) (data : List (List ℚ)) (i j : Nat) (s' : GNG)
    (hWF : s.WF) (hmax2 : (2 : Int) ≤ s.cfg.max_nodes)
    (hold : ∀ e ∈ s.edges, e.n1 < 2 ∧ e.n2 < 2)
    (h : initFromData s data i j = some s') : s'.WF := by
  obtain ⟨hmaxn, hmaxe, hok, herr, h65⟩ := hWF
  unfold initFromData at h
  split at h
  · simp at h
  rw [if_neg (show ¬ (0 < s.cfg.feature_dim ∧ s.cfg.max_nodes < 2) from
    fun hc => by omega)] at h
  · have hs' : add_edge
        { s with
          weights := [(List.range s.cfg.feature_dim.toNat).map
              (fun d => float_to_fixed ((data.getD i []).getD d 0)),
            (List.range s.cfg.feature_dim.toNat).map
              (fun d => float_to_fixed ((data.getD j []).getD d 0))]
          errors := [s.errors.getD 0 0, s.errors.getD 1 0] } 0 1 = s' :=
      Option.some_inj.mp h
    rw [← hs']
    refine add_edge_WF _ 0 1 ⟨?_, ?_, ?_, ?_, ?_⟩ (by show 0 < 2; omega) (by show 1 < 2; omega)
    · show ((2 : Nat) : Int) ≤ s.cfg.max_nodes
      push_cast
      omega
    · show ((s.edges.length : Nat) : Int) ≤ s.cfg.max_edges
      exact hmaxe
    · show EdgesOK 2 s.edges
      exact ⟨fun e he => ⟨(hold e he).1, (hold e he).2, (hok.1 e he).2.2⟩, hok.2⟩
    · rfl
    · exact h65

/-! ### Reachability and the C1 invariant theorem -/

lemma reachable_WF (s : GNG) (h : Reachable s) : s.WF := by
  induction h with
  | construct cfg s hmk h65 => exact mk_WF cfg s hmk h65
  | addE s a b _ ha hb ih => exact add_edge_WF s a b ih ha hb
  | remE s i _ ih => exact remove_edge_WF s i ih
  | initl s data i j s' _ hmax2 hold _ _ _ hinit ih =>
    exact initFromData_WF s data i j s' ih hmax2 hold hinit
  | ins s s' _ hins ih => exact insert_node_WF s s' ih hins
  | step s sample s' _ hstep ih => exact train_step_WF s s' sample ih hstep

/-- C1 (amended): for every state reachable by construction followed by any
sequence of the mutating calls — restricted so that `add_edge` is only
invoked with endpoints below the current `n_nodes`, the configured
`max_nodes` fits the uint16 edge store (`<= 65536`), and re-initialization
only happens with node capacity at least 2 and when every stored edge has
endpoints below 2 (in particular as the first call) — the counts satisfy
`0 <= n_nodes <= max_nodes` and `0 <= n_edges <= max_edges`, and every
stored edge has both endpoints `< n_nodes`, no self-loop, and no unordered
endpoint pair stored twice. -/
theorem c1_invariants (s : GNG) (h : Reachable s) :
    (0 ≤ s.nNodes ∧ (s.nNodes : Int) ≤ s.cfg.max_nodes) ∧
    (0 ≤ s.nEdges ∧ (s.nEdges : Int) ≤ s.cfg.max_edges) ∧
    (∀ e ∈ s.edges, e.n1 < s.nNodes ∧ e.n2 < s.nNodes ∧ e.n1 ≠ e.n2) ∧
    s.edges.Pairwise (fun e f => ¬ sameUPair e f) := by
  obtain ⟨h1, h2, h3, h4, h5⟩ := reachable_WF s h
  refine ⟨⟨Nat.zero_le _, h1⟩, ⟨Nat.zero_le _, h2⟩, ?_, h3.2⟩
  intro e he
  obtain ⟨a1, a2, a3⟩ := h3.1 e he
  exact ⟨a1, a2, by omega⟩

/-- Witness for C1 at the freshly constructed engine. -/
theorem c1_invariants_witness :
    (0 ≤ gngFresh.nNodes ∧ (gngFresh.nNodes : Int) ≤ gngFresh.cfg.max_nodes) ∧
    (0 ≤ gngFresh.nEdges ∧ (gngFresh.nEdges : Int) ≤ gngFresh.cfg.max_edges) ∧
    (∀ e ∈ gngFresh.edges,
      e.n1 < gngFresh.nNodes ∧ e.n2 < gngFresh.nNodes ∧ e.n1 ≠ e.n2) ∧
    gngFresh.edges.Pairwise (fun e f => ¬ sameUPair e f) :=
  c1_invariants gngFresh
    (Reachable.construct cfgStd gngFresh (by decide) (by decide))

/-! ### Configuration and bookkeeping fields through the pipeline -/

lemma pruneAged_cfg_eq (s : GNG) : (pruneAged s).cfg = s.cfg := rfl

lemma ageIncident_cfg_eq (s : GNG) (n : Nat) : (ageIncident s n).cfg = s.cfg := rfl

lemma add_edge_cfg_eq (s : GNG) (a b : Nat) : (add_edge s a b).cfg = s.cfg := by
  obtain ⟨es, h⟩ := add_edge_is_edge_update s a b
  rw [h]

lemma adaptPhase_cfg_eq (s : GNG) (sample : List ℚ) :
    (adaptPhase s sample).cfg = s.cfg := by
  simp only [adaptPhase]
  rw [pruneAged_cfg_eq, ageIncident_cfg_eq, add_edge_cfg_eq,
    (foldl_update_shape sample _ _).2.2.1]
  rfl

lemma decay_errors_edges (s : GNG) : (decay_errors s).edges = s.edges := rfl

lemma decay_errors_nNodes (s : GNG) : (decay_errors s).nNodes = s.nNodes := rfl

lemma decay_errors_iteration (s : GNG) :
    (decay_errors s).iteration = s.iteration := rfl

/-! ### C6: the insertion routine -/

/-- C6 (amended): with spare node capacity and a neighbor for the
maximum-error node `q`, `insert_node` adds exactly one node whose weights
are the per-dimension midpoint of `q` and its maximum-error neighbor `f`,
removes the stored `(q,f)` edge, adds the `(q, new)` edge, and adds the
`(f, new)` edge exactly when the edge list is below capacity (at capacity
that second edge is silently dropped); it multiplies `error[q]` then
`error[f]` by `alpha` and copies the post-decay `error[q]` into the new
slot.  At node capacity, or when `q` has no neighbors, it returns with no
state change and no error. -/
theorem c6_insert_node (s : GNG) (hWF : s.WF) :
    ((s.cfg.max_nodes ≤ (s.nNodes : Int)) → insert_node s = some s) ∧
    (1 ≤ s.nNodes → ¬ s.cfg.max_nodes ≤ (s.nNodes : Int) →
      get_neighbors s (argmaxIdx s.errors) = [] → insert_node s = some s) ∧
    (∀ n0 nrest, ¬ s.cfg.max_nodes ≤ (s.nNodes : Int) →
      get_neighbors s (argmaxIdx s.errors) = n0 :: nrest →
      ∃ s' k,
        insert_node s = some s' ∧
        findEdgeIdx s.edges (argmaxIdx s.errors)
          (argmaxKey (fun n => s.errors.getD n 0) n0 nrest) = some k ∧
        s'.nNodes = s.nNodes + 1 ∧
        s'.weights = s.weights ++
          [(List.range s.cfg.feature_dim.toNat).map fun d =>
            (wrap32 ((s.weights.getD (argmaxIdx s.errors) []).getD d 0 +
              (s.weights.getD
                (argmaxKey (fun n => s.errors.getD n 0) n0 nrest) []).getD d 0)).fdiv 2] ∧
        s'.errors =
          ((s.errors.set (argmaxIdx s.errors)
              (fixed_mul (s.errors.getD (argmaxIdx s.errors) 0) s.alpha_fixed)).set
            (argmaxKey (fun n => s.errors.getD n 0) n0 nrest)
            (fixed_mul ((s.errors.set (argmaxIdx s.errors)
                (fixed_mul (s.errors.getD (argmaxIdx s.errors) 0) s.alpha_fixed)).getD
              (argmaxKey (fun n => s.errors.getD n 0) n0 nrest) 0) s.alpha_fixed)) ++
          [(((s.errors.set (argmaxIdx s.errors)
              (fixed_mul (s.errors.getD (argmaxIdx s.errors) 0) s.alpha_fixed)).set
            (argmaxKey (fun n => s.errors.getD n 0) n0 nrest)
            (fixed_mul ((s.errors.set (argmaxIdx s.errors)
                (fixed_mul (s.errors.getD (argmaxIdx s.errors) 0) s.alpha_fixed)).getD
              (argmaxKey (fun n => s.errors.getD n 0) n0 nrest) 0)
                s.alpha_fixed))).getD (argmaxIdx s.errors) 0] ∧
        s'.edges =
          (s.edges.eraseIdx k ++ [⟨argmaxIdx s.errors, s.nNodes, 0⟩]) ++
          (if (s.edges.length : Int) < s.cfg.max_edges
           then [⟨argmaxKey (fun n => s.errors.getD n 0) n0 nrest, s.nNodes, 0⟩]
           else [])) := by
  obtain ⟨hmaxn, hmaxe, hok, herr, h65⟩ := hWF
  refine ⟨?_, ?_, ?_⟩
  · intro hcap
    unfold insert_node
    rw [if_pos hcap]
  · intro h1n hcap hnb
    unfold insert_node
    rw [if_neg hcap, if_neg (by omega : ¬ s.nNodes = 0), hnb]
  · intro n0 nrest hcap hnb
    have hfmem : argmaxKey (fun n => s.errors.getD n 0) n0 nrest ∈ n0 :: nrest :=
      argmaxKey_mem _ _ _
    rw [← hnb] at hfmem
    obtain ⟨e, he, hor⟩ := (mem_get_neighbors s _ _).mp hfmem
    obtain ⟨b1, b2, b3⟩ := hok.1 e he
    have h1n : 1 ≤ s.nNodes := by omega
    have hq : argmaxIdx s.errors < s.nNodes := by
      have hne : s.errors ≠ [] := by
        intro hc
        rw [hc] at herr
        simp at herr
        omega
      have := argmaxIdx_lt s.errors hne
      rw [herr] at this
      exact this
    have hf : argmaxKey (fun n => s.errors.getD n 0) n0 nrest < s.nNodes := by
      rcases hor with ⟨_, h2⟩ | ⟨_, h2⟩
      · omega
      · omega
    have hqf : argmaxIdx s.errors ≠
        argmaxKey (fun n => s.errors.getD n 0) n0 nrest := by
      rcases hor with ⟨h1, h2⟩ | ⟨h1, h2⟩
      · omega
      · omega
    obtain ⟨k, hk⟩ := findEdgeIdx_some_of_mem s.edges _ _ e he (by
      rcases hor with ⟨h1, h2⟩ | ⟨h1, h2⟩
      · exact Or.inl ⟨h1, h2⟩
      · exact Or.inr ⟨h2, h1⟩)
    have hn65 : s.nNodes < 65536 := by
      push_neg at hcap
      omega
    obtain ⟨hw, herrs, hcfg, _, hed⟩ :=
      insertStep_spec s _ _ k hok hmaxe hq hf hqf hn65 hk
    refine ⟨insertStep s (argmaxIdx s.errors)
        (argmaxKey (fun n => s.errors.getD n 0) n0 nrest), k, ?_, hk, ?_, hw, herrs, ?_⟩
    · unfold insert_node
      rw [if_neg hcap, if_neg (by omega : ¬ s.nNodes = 0), hnb]
    · unfold GNG.nNodes
      rw [hw, List.length_append, List.length_singleton]
    · exact hed

/-- Witness for C6 at the at-capacity engine `gngCap` (the insertion branch
with a neighbor present). -/
theorem c6_insert_node_witness :
    gngCap.WF ∧
    get_neighbors gngCap (argmaxIdx gngCap.errors) = [1] ∧
    ∃ s' k,
      insert_node gngCap = some s' ∧
      findEdgeIdx gngCap.edges (argmaxIdx gngCap.errors)
        (argmaxKey (fun n => gngCap.errors.getD n 0) 1 []) = some k ∧
      s'.nNodes = gngCap.nNodes + 1 ∧
      s'.weights = gngCap.weights ++
        [(List.range gngCap.cfg.feature_dim.toNat).map fun d =>
          (wrap32 ((gngCap.weights.getD (argmaxIdx gngCap.errors) []).getD d 0 +
            (gngCap.weights.getD
              (argmaxKey (fun n => gngCap.errors.getD n 0) 1 []) []).getD d 0)).fdiv 2] ∧
      s'.errors =
        ((gngCap.errors.set (argmaxIdx gngCap.errors)
            (fixed_mul (gngCap.errors.getD (argmaxIdx gngCap.errors) 0)
              gngCap.alpha_fixed)).set
          (argmaxKey (fun n => gngCap.errors.getD n 0) 1 [])
          (fixed_mul ((gngCap.errors.set (argmaxIdx gngCap.errors)
              (fixed_mul (gngCap.errors.getD (argmaxIdx gngCap.errors) 0)
                gngCap.alpha_fixed)).getD
            (argmaxKey (fun n => gngCap.errors.getD n 0) 1 []) 0)
              gngCap.alpha_fixed)) ++
        [(((gngCap.errors.set (argmaxIdx gngCap.errors)
            (fixed_mul (gngCap.errors.getD (argmaxIdx gngCap.errors) 0)
              gngCap.alpha_fixed)).set
          (argmaxKey (fun n => gngCap.errors.getD n 0) 1 [])
          (fixed_mul ((gngCap.errors.set (argmaxIdx gngCap.errors)
              (fixed_mul (gngCap.errors.getD (argmaxIdx gngCap.errors) 0)
                gngCap.alpha_fixed)).getD
            (argmaxKey (fun n => gngCap.errors.getD n 0) 1 []) 0)
              gngCap.alpha_fixed))).getD (argmaxIdx gngCap.errors) 0] ∧
      s'.edges =
        (gngCap.edges.eraseIdx k ++ [⟨argmaxIdx gngCap.errors, gngCap.nNodes, 0⟩]) ++
        (if (gngCap.edges.length : Int) < gngCap.cfg.max_edges
         then [⟨argmaxKey (fun n => gngCap.errors.getD n 0) 1 [], gngCap.nNodes, 0⟩]
         else []) :=
  ⟨⟨by decide, by decide, ⟨by decide, by decide⟩, by decide, by decide⟩, by decide,
    (c6_insert_node gngCap
      ⟨by decide, by decide, ⟨by decide, by decide⟩, by decide, by decide⟩).2.2 1 []
      (by decide) (by decide)⟩

/-- Counterexample to C6 as stated: on the at-capacity engine `gngCap`
(`max_edges = 1`, nodes 0 and 1 joined by the full edge slot) the insertion
runs with `n_nodes < max_nodes` and `q = 0` has the neighbor `f = 1`, yet
after it completes the `(r, f)` edge was never added: the resulting edge
list is exactly `[(0, 2)]` and node 1 has no incident edge. -/
theorem c6_counterexample :
    (insert_node gngCap).isSome = true ∧
    ((insert_node gngCap).getD gngCap).nNodes = 3 ∧
    ((insert_node gngCap).getD gngCap).edges = [⟨0, 2, 0⟩] ∧
    (((insert_node gngCap).getD gngCap).edges.all
      (fun e => ¬ (e.n1 = 1 ∨ e.n2 = 1))) = true := by decide

/-! ### C2: no isolated node after a completed step -/

/-- C2 (amended): after a completed `train_step` on an engine with at least
2 active nodes, every active node has at least one incident edge — provided
the step did not perform the periodic node insertion with the edge list at
capacity (the side hypothesis: the resulting edge count is still below
`max_edges`, or the resulting iteration count is not a multiple of
`lambda_`, so no insertion was due).  Isolation pruning (step 8) is
exhaustive, and an inserted node always keeps its `(q, new)` edge; only the
`(new, f)` wiring edge can be dropped at capacity, leaving `f` isolated. -/
theorem c2_connected_after_step (s s' : GNG) (sample : List ℚ)
    (hWF : s.WF) (h2 : 2 ≤ s.nNodes)
    (hstep : train_step s sample = some s')
    (hside : (s'.nEdges : Int) < s.cfg.max_edges ∨
      ¬ ((s'.iteration : Int).fmod s.cfg.lambda_ = 0)) :
    ∀ i, i < s'.nNodes → ∃ e ∈ s'.edges, e.n1 = i ∨ e.n2 = i := by
  unfold train_step at hstep
  rw [if_neg (show ¬ s.nNodes < 2 by omega)] at hstep
  rcases hri : remove_isolated_nodes (adaptPhase s sample) with _ | sG
  · rw [hri] at hstep
    simp at hstep
  · rw [hri] at hstep
    have hA : (adaptPhase s sample).WF := adaptPhase_WF s sample h2 hWF
    obtain ⟨hAmaxn, hAmaxe, hAok, hAerr, hA65⟩ := hA
    have hAn65 : (adaptPhase s sample).nNodes ≤ 65536 := by omega
    have hGeq : compactState (adaptPhase s sample) = sG := by
      have h1 := remove_isolated_eq (adaptPhase s sample)
        (fun e he => ⟨(hAok.1 e he).1, (hAok.1 e he).2.1⟩) hAmaxn
      rw [h1] at hri
      exact Option.some_inj.mp hri
    have hGconn : ∀ k, k < sG.nNodes → ∃ e ∈ sG.edges, e.n1 = k ∨ e.n2 = k := by
      rw [← hGeq]
      exact compact_connected (adaptPhase s sample) hAok hAn65
    have hG : sG.WF :=
      remove_isolated_WF _ _ ⟨hAmaxn, hAmaxe, hAok, hAerr, hA65⟩ hri
    obtain ⟨hGmaxn, hGmaxe, hGok, hGerr, hG65⟩ := hG
    have hGcfg : sG.cfg = s.cfg := by
      rw [← hGeq]
      show (adaptPhase s sample).cfg = s.cfg
      exact adaptPhase_cfg_eq s sample
    have hstep' : (if s.cfg.lambda_ = 0 then (none : Option GNG)
        else if ((sG.iteration + 1 : Nat) : Int).fmod s.cfg.lambda_ = 0 ∧
            (sG.nNodes : Int) < s.cfg.max_nodes then
          (match insert_node { sG with iteration := sG.iteration + 1 } with
            | none => none
            | some sI => some (decay_errors sI))
        else some (decay_errors { sG with iteration := sG.iteration + 1 })) =
        some s' := hstep
    by_cases hl0 : s.cfg.lambda_ = 0
    · rw [if_pos hl0] at hstep'
      simp at hstep'
    · rw [if_neg hl0] at hstep'
      by_cases hcond : ((sG.iteration + 1 : Nat) : Int).fmod s.cfg.lambda_ = 0 ∧
          (sG.nNodes : Int) < s.cfg.max_nodes
      · rw [if_pos hcond] at hstep'
        set t : GNG := { sG with iteration := sG.iteration + 1 } with hte
        have htE : t.edges = sG.edges := by rw [hte]
        have htErr : t.errors = sG.errors := by rw [hte]
        have htN : t.nNodes = sG.nNodes := by rw [hte]; rfl
        have htC : t.cfg = sG.cfg := by rw [hte]
        have htI : t.iteration = sG.iteration + 1 := by rw [hte]
        rcases hins : insert_node t with _ | sI
        · rw [hins] at hstep'
          simp at hstep'
        · rw [hins] at hstep'
          have hfin : some (decay_errors sI) = some s' := hstep'
          have hs'I : s' = decay_errors sI := (Option.some_inj.mp hfin).symm
          unfold insert_node at hins
          by_cases hcapT : t.cfg.max_nodes ≤ (t.nNodes : Int)
          · exfalso
            rw [htC, htN, hGcfg] at hcapT
            omega
          · rw [if_neg hcapT] at hins
            by_cases hzT : t.nNodes = 0
            · exfalso
              rw [if_pos hzT] at hins
              simp at hins
            · rw [if_neg hzT] at hins
              have hGn0 : sG.nNodes ≠ 0 := by rw [← htN]; exact hzT
              have hq2 : argmaxIdx t.errors < t.nNodes := by
                rw [htErr, htN]
                have hne : sG.errors ≠ [] := by
                  intro hc
                  rw [hc] at hGerr
                  simp at hGerr
                  omega
                have := argmaxIdx_lt sG.errors hne
                rw [hGerr] at this
                exact this
              rcases hnb : get_neighbors t (argmaxIdx t.errors) with _ | ⟨n0, nrest⟩
              · exfalso
                rw [hnb] at hins
                obtain ⟨e, he, hor⟩ := hGconn (argmaxIdx t.errors) (by omega)
                rw [← htE] at he
                rw [← htErr] at hor
                rcases hor with h1 | h1
                · have hmem : e.n2 ∈ get_neighbors t (argmaxIdx t.errors) :=
                    (mem_get_neighbors t _ _).mpr ⟨e, he, Or.inl ⟨h1, rfl⟩⟩
                  rw [hnb] at hmem
                  exact absurd hmem (List.not_mem_nil _)
                · have hmem : e.n1 ∈ get_neighbors t (argmaxIdx t.errors) :=
                    (mem_get_neighbors t _ _).mpr ⟨e, he, Or.inr ⟨h1, rfl⟩⟩
                  rw [hnb] at hmem
                  exact absurd hmem (List.not_mem_nil _)
              · rw [hnb] at hins
                have hsI : insertStep t (argmaxIdx t.errors)
                    (argmaxKey (fun n => t.errors.getD n 0) n0 nrest) = sI :=
                  Option.some_inj.mp hins
                have hfmem : argmaxKey (fun n => t.errors.getD n 0) n0 nrest ∈
                    n0 :: nrest := argmaxKey_mem _ _ _
                rw [← hnb] at hfmem
                obtain ⟨e0, he0, hor0⟩ := (mem_get_neighbors t _ _).mp hfmem
                have he0' : e0 ∈ sG.edges := by rw [← htE]; exact he0
                obtain ⟨b1, b2, b3⟩ := hGok.1 e0 he0'
                have hf2 : argmaxKey (fun n => t.errors.getD n 0) n0 nrest <
                    t.nNodes := by
                  rw [htN]
                  rcases hor0 with ⟨_, h1⟩ | ⟨_, h1⟩
                  · omega
                  · omega
                have hqf2 : argmaxIdx t.errors ≠
                    argmaxKey (fun n => t.errors.getD n 0) n0 nrest := by
                  rcases hor0 with ⟨h1, h1'⟩ | ⟨h1, h1'⟩
                  · omega
                  · omega
                obtain ⟨k, hk⟩ := findEdgeIdx_some_of_mem t.edges _ _ e0 he0 (by
                  rcases hor0 with ⟨h1, h1'⟩ | ⟨h1, h1'⟩
                  · exact Or.inl ⟨h1, h1'⟩
                  · exact Or.inr ⟨h1', h1⟩)
                have hokT : EdgesOK t.nNodes t.edges := by
                  rw [htN, htE]
                  exact hGok
                have hmaxeT : (t.edges.length : Int) ≤ t.cfg.max_edges := by
                  rw [htE, htC]
                  exact hGmaxe
                have hn65T : t.nNodes < 65536 := by
                  rw [htN]
                  have h1 : (sG.nNodes : Int) < s.cfg.max_nodes := hcond.2
                  rw [← hGcfg] at h1
                  omega
                obtain ⟨hw, herrs, hcfgI, hitI, hed⟩ :=
                  insertStep_spec t _ _ k hokT hmaxeT hq2 hf2 hqf2 hn65T hk
                have hklen := (findEdgeIdx_some_spec t.edges _ _ k hk).1
                have hiter : s'.iteration = sG.iteration + 1 := by
                  rw [hs'I]
                  show sI.iteration = sG.iteration + 1
                  rw [← hsI, hitI, htI]
                have hcap2 : (t.edges.length : Int) < t.cfg.max_edges := by
                  rcases hside with hcE | hcF
                  · by_cases hcc : (t.edges.length : Int) < t.cfg.max_edges
                    · exact hcc
                    · exfalso
                      have hlenE : s'.edges.length = t.edges.length := by
                        rw [hs'I]
                        show sI.edges.length = t.edges.length
                        rw [← hsI, hed, if_neg hcc, List.append_nil,
                          List.length_append, List.length_singleton,
                          List.length_eraseIdx, if_pos hklen]
                        omega
                      have hnE : s'.nEdges = s'.edges.length := rfl
                      rw [htC, hGcfg] at hcc
                      rw [hnE, hlenE] at hcE
                      rw [htE] at hcE hcc
                      omega
                  · exfalso
                    apply hcF
                    rw [hiter]
                    exact hcond.1
                have hednew : s'.edges =
                    (t.edges.eraseIdx k ++
                      [⟨argmaxIdx t.errors, t.nNodes, 0⟩]) ++
                    [⟨argmaxKey (fun n => t.errors.getD n 0) n0 nrest,
                      t.nNodes, 0⟩] := by
                  rw [hs'I]
                  show sI.edges = _
                  rw [← hsI, hed, if_pos hcap2]
                have hnnew : s'.nNodes = t.nNodes + 1 := by
                  rw [hs'I]
                  show sI.nNodes = t.nNodes + 1
                  rw [← hsI]
                  show (insertStep t _ _).weights.length = t.nNodes + 1
                  rw [hw, List.length_append, List.length_singleton]
                  rfl
                intro i hi
                rw [hednew]
                rw [hnnew] at hi
                by_cases hiq : i = argmaxIdx t.errors
                · exact ⟨⟨argmaxIdx t.errors, t.nNodes, 0⟩, by simp,
                    Or.inl hiq.symm⟩
                · by_cases hin : i = t.nNodes
                  · exact ⟨⟨argmaxIdx t.errors, t.nNodes, 0⟩, by simp,
                      Or.inr hin.symm⟩
                  · by_cases hif :
                        i = argmaxKey (fun n => t.errors.getD n 0) n0 nrest
                    · exact ⟨⟨argmaxKey (fun n => t.errors.getD n 0) n0 nrest,
                        t.nNodes, 0⟩, by simp, Or.inl hif.symm⟩
                    · have hilt : i < sG.nNodes := by
                        rw [← htN]
                        omega
                      obtain ⟨e, he, hor⟩ := hGconn i hilt
                      have he2 : e ∈ t.edges := by rw [htE]; exact he
                      have hkspec := (findEdgeIdx_some_spec t.edges _ _ k hk).2
                      have hne : e ≠ t.edges.getD k ⟨0,0,0⟩ := by
                        intro hc
                        rw [hc] at hor
                        rcases hkspec with ⟨x1, x2⟩ | ⟨x1, x2⟩ <;>
                          rcases hor with h1 | h1 <;> omega
                      have hee : e ∈ t.edges.eraseIdx k :=
                        mem_eraseIdx_of_ne t.edges k e he2 hne
                      exact ⟨e, List.mem_append.mpr
                        (Or.inl (List.mem_append.mpr (Or.inl hee))), hor⟩
      · rw [if_neg hcond] at hstep'
        have hfin : some (decay_errors { sG with iteration := sG.iteration + 1 }) =
            some s' := hstep'
        have hs'd : s' = decay_errors { sG with iteration := sG.iteration + 1 } :=
          (Option.some_inj.mp hfin).symm
        intro i hi
        have hnn : s'.nNodes = sG.nNodes := by
          rw [hs'd]
          rfl
        have hedg : s'.edges = sG.edges := by
          rw [hs'd]
          rfl
        rw [hnn] at hi
        rw [hedg]
        exact hGconn i hi

/-- Witness for C2 on a completed, non-inserting step (`lambda_ = 300`,
first iteration). -/
theorem c2_connected_after_step_witness :
    (gngTwo.WF ∧ 2 ≤ gngTwo.nNodes ∧
      train_step gngTwo [(0:ℚ)] =
        some ((train_step gngTwo [(0:ℚ)]).getD gngTwo) ∧
      ¬ (((((train_step gngTwo [(0:ℚ)]).getD gngTwo).iteration : Int)).fmod
        gngTwo.cfg.lambda_ = 0)) ∧
    (∀ i, i < ((train_step gngTwo [(0:ℚ)]).getD gngTwo).nNodes →
      ∃ e ∈ ((train_step gngTwo [(0:ℚ)]).getD gngTwo).edges,
        e.n1 = i ∨ e.n2 = i) :=
  ⟨⟨⟨by decide, by decide, ⟨by decide, by decide⟩, by decide, by decide⟩,
    by decide, by decide, by decide⟩,
    c2_connected_after_step gngTwo ((train_step gngTwo [(0:ℚ)]).getD gngTwo)
      [(0:ℚ)]
      ⟨by decide, by decide, ⟨by decide, by decide⟩, by decide, by decide⟩
      (by decide) (by decide) (Or.inr (by decide))⟩

/-- Counterexample to C2 as stated: on the at-capacity engine `gngCap`
(`max_edges = 1`, `lambda_ = 1`, two connected nodes) `train_step`
completes, the growth controller inserts node 2 while the edge list is
full, and the resulting state has 3 active nodes but node 1 has no
incident edge: the `(new, f)` wiring edge was silently dropped. -/
theorem c2_counterexample :
    2 ≤ gngCap.nNodes ∧
    (train_step gngCap [(0:ℚ)]).isSome = true ∧
    ((train_step gngCap [(0:ℚ)]).getD gngCap).nNodes = 3 ∧
    (((train_step gngCap [(0:ℚ)]).getD gngCap).edges.all
      (fun e => ¬ (e.n1 = 1 ∨ e.n2 = 1))) = true := by decide

end GNGLite
